import Mathlib

/-!
Verification of the ECMAScript lexer core (src/ecmascript/parser/src/lexer/mod.rs).

The lexer is shallowly embedded: the remaining input is a `List Char` together
with the current byte offset (the source tracks `BytePos` byte offsets; a
character advances the offset by its UTF-8 length).  Fallible readers return
`Except LexError (α × St)`, mirroring `LexResult`.  Helper modules of the
repository that are not part of the provided sources (`input.rs`, `number.rs`,
`state.rs`, `util.rs` and the error machinery) are modelled from the
specification; each such definition carries a doc comment starting with
`Modelled from the spec:`.
-/

set_option autoImplicit false

namespace SwcLexer

/-- Spans are pairs of byte offsets, start inclusive, end exclusive (spec 3). -/
structure Span where
  lo : Nat
  hi : Nat
  deriving DecidableEq, Repr

/-- The lexical error kinds used by the lexer core (spec 7, `error::SyntaxError`). -/
inductive SyntaxError where
  | UnexpectedChar (c : Char)
  | InvalidStrEscape
  | ExpectedHexChars (count : Nat)
  | NonUtf8Char (val : Nat)
  | InvalidUnicodeEscape
  | InvalidCodePoint
  | InvalidIdentChar
  | ExpectedUnicodeEscape
  | EscapeInReservedWord (word : String)
  | LegacyOctal
  | LegacyCommentInModule
  | UnterminatedStrLit
  | UnterminatedRegxp
  | UnterminatedTpl
  | UnterminatedBlockComment
  | InvalidNumber
  deriving DecidableEq, Repr

/-- An error is an error kind together with its span (spec 4.9). -/
abbrev LexError := Span × SyntaxError

deriving instance DecidableEq for Except

/-- UTF-8 byte length of a character, as used by the source to advance `BytePos`
(Rust `char::len_utf8`). -/
def utf8Len (c : Char) : Nat :=
  if c.toNat ≤ 0x7F then 1
  else if c.toNat ≤ 0x7FF then 2
  else if c.toNat ≤ 0xFFFF then 3
  else 4

/-- Total UTF-8 byte length of a character list. -/
def utf8LenList (cs : List Char) : Nat := (cs.map utf8Len).sum

/-- Combined character-input and lexer state.  `pos` is the byte offset of the
cursor, `chars` the remaining input.  The boolean flags are the cross-token
lexer state of spec 3 (`state.rs` of the repository). -/
structure St where
  pos : Nat
  chars : List Char
  hadLineBreak : Bool
  isExprAllowed : Bool
  lastWasTplElement : Bool
  deriving DecidableEq, Repr

/-- Context flags passed to the lexer (spec 3).  `isReservedWord` is
Modelled from the spec: the reserved-word determination of
`Context::is_reserved_word` lives outside the provided sources and depends on
strict/module/await/yield context, so it is supplied as a boolean query on the
decoded word (spec 4.8). -/
structure Ctx where
  strict : Bool
  module : Bool
  fnBind : Bool
  isReservedWord : String → Bool

/-- Code point at the cursor (Input::current). -/
def St.cur (st : St) : Option Char := st.chars.head?

/-- Code point after the cursor (Input::peek). -/
def St.peek (st : St) : Option Char := st.chars[1]?

/-- Code point two after the cursor (Input::peek_ahead). -/
def St.peekAhead (st : St) : Option Char := st.chars[2]?

/-- Advance one code point; a no-op at end of input (Input::bump). -/
def St.bump (st : St) : St :=
  match st.chars with
  | [] => st
  | c :: rest => { st with pos := st.pos + utf8Len c, chars := rest }

/-- Pure test of the current character (Input::is). -/
def St.is (st : St) (c : Char) : Bool := st.cur = some c

/-- Advance past `c` if it is the current character, reporting whether it was
(Input::eat). -/
def St.eat (st : St) (c : Char) : Bool × St :=
  if st.is c then (true, st.bump) else (false, st)

@[simp] theorem St.bump_nil (st : St) (h : st.chars = []) : st.bump = st := by
  simp [St.bump, h]

@[simp] theorem St.bump_cons (st : St) (c : Char) (rest : List Char)
    (h : st.chars = c :: rest) :
    st.bump = { st with pos := st.pos + utf8Len c, chars := rest } := by
  simp [St.bump, h]

theorem St.bump_length_le (st : St) : st.bump.chars.length ≤ st.chars.length := by
  cases h : st.chars with
  | nil => simp [St.bump, h]
  | cons c rest => simp [St.bump, h]

theorem St.bump_length_lt (st : St) (c : Char) (rest : List Char)
    (h : st.chars = c :: rest) : st.bump.chars.length < st.chars.length := by
  simp [St.bump, h]

/-- The error reporter.  Modelled from the spec: `Lexer::error` (outside the
provided sources) produces an error whose span starts at the given position and
ends at the current one (spec 4.9, 7). -/
def errAt (start : Nat) (st : St) (k : SyntaxError) : LexError := (⟨start, st.pos⟩, k)

/-- An empty span at `p` (`pos_span` in the source). -/
def posSpan (p : Nat) : Span := ⟨p, p⟩

/-! ### Character classes

`util.rs` of the repository is not among the provided sources; the character
classifiers are modelled from the spec. -/

/-- Modelled from the spec: ECMAScript line terminators LF, CR, LS, PS
(spec 4.2, `util.rs::is_line_break`). -/
def isLineBreak (c : Char) : Bool :=
  c = '\n' || c = '\r' || c = '\u2028' || c = '\u2029'

/-- Modelled from the spec: ECMAScript whitespace other than line terminators
(spec 4.2): space, tab, VT, FF, NBSP, BOM and the Unicode Zs characters. -/
def isWhitespaceNotLb (c : Char) : Bool :=
  c = ' ' || c = '\t' || c = '\u000b' || c = '\u000c' || c = '\u00a0' ||
  c = '\ufeff' || c = '\u1680' ||
  ('\u2000' ≤ c && c ≤ '\u200a') || c = '\u202f' || c = '\u205f' || c = '\u3000'

/-- Modelled from the spec: identifier-start characters (spec 4.8): letters
(`UnicodeID_Start`, here the ASCII letters), underscore and dollar
(`util.rs::is_ident_start`). -/
def isIdentStart (c : Char) : Bool :=
  c.isAlpha || c = '_' || c = '$'

/-- Modelled from the spec: identifier-continue characters (spec 4.8):
identifier-start characters, digits, ZWNJ and ZWJ
(`util.rs::is_ident_part`). -/
def isIdentPart (c : Char) : Bool :=
  isIdentStart c || c.isDigit || c = '\u200c' || c = '\u200d'

/-- Value of `c` as a digit in `radix`, `none` when `c` is not such a digit
(Rust `char::to_digit`). -/
def digitVal (radix : Nat) (c : Char) : Option Nat :=
  if 48 ≤ c.toNat ∧ c.toNat ≤ 57 then
    if c.toNat - 48 < radix then some (c.toNat - 48) else none
  else if 97 ≤ c.toNat ∧ c.toNat ≤ 122 then
    if c.toNat - 97 + 10 < radix then some (c.toNat - 97 + 10) else none
  else if 65 ≤ c.toNat ∧ c.toNat ≤ 90 then
    if c.toNat - 65 + 10 < radix then some (c.toNat - 65 + 10) else none
  else none

/-- A character with an octal-digit value (Rust `c.is_digit(8)`). -/
def isOctDigit (c : Char) : Bool := (digitVal 8 c).isSome

/-- A character with a hexadecimal-digit value (Rust `c.is_digit(16)`). -/
def isHexDigit (c : Char) : Bool := (digitVal 16 c).isSome

/-- Mirror of Rust `char::from_u32`: `none` exactly on surrogates and values
above `0x10FFFF`. -/
def charFromU32 (val : Nat) : Option Char :=
  if Nat.isValidChar val then some (Char.ofNat val) else none

/-! ### Integer scanning -/

/-- Loop of `read_int`; returns the number of digits read, the accumulated
value and the rest state. -/
def readIntGo (radix : Nat) (len : Nat) (count : Nat) (total : Nat) (st : St) :
    Nat × Nat × St :=
  match h : st.chars with
  | [] => (count, total, st)
  | c :: _ =>
    if len ≠ 0 ∧ count = len then (count, total, st)
    else
      match digitVal radix c with
      | some v => readIntGo radix len (count + 1) (total * radix + v) st.bump
      | none => (count, total, st)
termination_by st.chars.length
decreasing_by exact St.bump_length_lt st c _ h

/-- Modelled from the spec: `read_int(radix, len)` of the number-scanner module
(`number.rs`, outside the provided sources): reads digits of the given radix,
exactly `len` of them when `len` is nonzero, as many as possible when `len` is
zero; yields `none` when no digit was read or when fewer than the `len`
required digits were present (spec 4.4, 4.5). -/
def readInt (radix : Nat) (len : Nat) (st : St) : Option Nat × St :=
  let r := readIntGo radix len 0 0 st
  if r.1 = 0 then (none, r.2.2)
  else if len ≠ 0 ∧ r.1 ≠ len then (none, r.2.2)
  else (some r.2.1, r.2.2)

/-- One-step equation: `readIntGo` at end of input. -/
theorem readIntGo_nil (radix len count total : Nat) (st : St) (h : st.chars = []) :
    readIntGo radix len count total st = (count, total, st) := by
  rw [readIntGo]; split <;> simp_all

/-- One-step equation: `readIntGo` at a cons cell. -/
theorem readIntGo_cons (radix len count total : Nat) (st : St) (c : Char)
    (rest : List Char) (h : st.chars = c :: rest) :
    readIntGo radix len count total st =
      if len ≠ 0 ∧ count = len then (count, total, st)
      else
        match digitVal radix c with
        | some v => readIntGo radix len (count + 1) (total * radix + v) st.bump
        | none => (count, total, st) := by
  rw [readIntGo]
  split
  · simp_all
  next c' tail' h' =>
    rw [h] at h'
    obtain ⟨rfl, rfl⟩ : c = c' ∧ rest = tail' := by simp_all
    rfl

theorem readIntGo_length_le (radix len count total : Nat) (st : St) :
    (readIntGo radix len count total st).2.2.chars.length ≤ st.chars.length := by
  induction count, total, st using readIntGo.induct radix len with
  | case1 count total st h => rw [readIntGo_nil radix len _ _ _ h]
  | case2 count total st c tail h hstop =>
    rw [readIntGo_cons radix len _ _ _ _ _ h, if_pos hstop]
  | case3 count total st c tail h hstop v hv ih =>
    rw [readIntGo_cons radix len _ _ _ _ _ h, if_neg hstop, hv]
    exact le_trans ih (St.bump_length_le st)
  | case4 count total st c tail h hstop hv =>
    rw [readIntGo_cons radix len _ _ _ _ _ h, if_neg hstop, hv]

theorem readInt_length_le (radix len : Nat) (st : St) :
    (readInt radix len st).2.chars.length ≤ st.chars.length := by
  have h := readIntGo_length_le radix len 0 0 st
  simp only [readInt]
  split
  · exact h
  split <;> exact h

/-! ### Token model (spec 3, `token/mod.rs`) -/

/-- Binary-operator tokens (spec 3). -/
inductive BinOpToken where
  | Add | Sub | Mul | Div | Mod | Exp
  | Lt | LtEq | Gt | GtEq | LShift | RShift | ZeroFillRShift
  | BitAnd | BitOr | BitXor | LogicalAnd | LogicalOr
  | EqEq | NotEq | EqEqEq | NotEqEq
  | In | InstanceOf
  deriving DecidableEq, Repr

/-- Assignment-operator tokens (spec 3). -/
inductive AssignOpToken where
  | Assign | AddAssign | SubAssign | MulAssign | DivAssign | ModAssign
  | LShiftAssign | RShiftAssign | ZeroFillRShiftAssign
  | BitOrAssign | BitXorAssign | BitAndAssign | ExpAssign
  deriving DecidableEq, Repr

/-- Token variants (spec 3).  `Word` carries the canonicalised word (the source
converts it into the keyword/identifier split of `token/mod.rs`, which is
outside the provided sources); `Num` carries the numeric value, modelled as a
rational in place of the source's 64-bit float. -/
inductive Token where
  | LParen | RParen | Semi | Comma | LBracket | RBracket | LBrace | RBrace
  | At | QuestionMark | Dot | DotDotDot | BackQuote | Colon | ColonColon
  | DollarLBrace | Arrow | Bang | Tilde | PlusPlus | MinusMinus
  | BinOp (op : BinOpToken)
  | AssignOp (op : AssignOpToken)
  | Word (w : String)
  | Num (value : Rat)
  | Str (value : String) (hasEscape : Bool)
  | Template (cooked : String)
  | Regex (content : String) (flags : String)
  deriving DecidableEq, Repr

/-! ### Escape sequences -/

/-- `read_hex_char`: read `count` hex digits and convert them to a character. -/
def readHexChar (start : Nat) (count : Nat) (st : St) : Except LexError (Char × St) :=
  let r := readInt 16 count st
  match r.1 with
  | some val =>
    match charFromU32 val with
    | some c => .ok (c, r.2)
    | none => .error (errAt start r.2 (.NonUtf8Char val))
  | none => .error (errAt start r.2 (.ExpectedHexChars count))

/-- `read_code_point`: hex digits forming a code point at most `0x10FFFF`.
Errors are reported at the position where the digits begin. -/
def readCodePoint (st : St) : Except LexError (Char × St) :=
  let start := st.pos
  let r := readInt 16 0 st
  match r.1 with
  | some val =>
    if val ≤ 0x10FFFF then
      match charFromU32 val with
      | some c => .ok (c, r.2)
      | none => .error (errAt start r.2 .InvalidCodePoint)
    else .error (errAt start r.2 .InvalidCodePoint)
  | none => .error (errAt start r.2 .InvalidCodePoint)

/-- `read_unicode_escape`: expects the cursor on `u`; reads either a braced
code point or exactly four hex digits.  `start` is the position of the
backslash that began the escape. -/
def readUnicodeEscape (start : Nat) (st : St) : Except LexError (Char × St) :=
  match st.bump.eat '\x7b' with
  | (true, st2) =>
    match readCodePoint st2 with
    | .error er => .error er
    | .ok (c, st3) =>
      match st3.eat '\x7d' with
      | (true, st4) => .ok (c, st4)
      | (false, st4) => .error (errAt start st4 .InvalidUnicodeEscape)
  | (false, st2) => readHexChar start 4 st2

/-- Octal arm of `read_escaped_char` (source lines 317-367): the cursor has
consumed the backslash and the first octal digit `c`; `start` is the position
of the backslash. -/
def readEscapedOctal (inTemplate : Bool) (ctx : Ctx) (start : Nat) (c : Char)
    (st2 : St) : Except LexError (Option Char × St) :=
  if c = '0' && !(st2.cur.any isOctDigit) then
    -- a backslash-zero not followed by an octal digit is NUL
    .ok (some '\u0000', st2)
  else if inTemplate then .error (errAt start st2 .LegacyOctal)
  else if ctx.strict then .error (errAt start st2 .LegacyOctal)
  else
    match st2.cur.bind (digitVal 8) with
    | none => .ok (some (Char.ofNat ((digitVal 8 c).getD 0)), st2)
    | some v2 =>
      match st2.bump.cur.bind (digitVal 8) with
      | none => .ok (some (Char.ofNat ((digitVal 8 c).getD 0 * 8 + v2)), st2.bump)
      | some v3 =>
        -- the third digit participates only when the u8 value survives
        if ((digitVal 8 c).getD 0 * 8 + v2) * 8 + v3 ≤ 255 then
          .ok (some (Char.ofNat (((digitVal 8 c).getD 0 * 8 + v2) * 8 + v3)), st2.bump.bump)
        else .ok (some (Char.ofNat ((digitVal 8 c).getD 0 * 8 + v2)), st2.bump)

/-- The arms of the `match` in `read_escaped_char` (source lines 287-369),
reified so that case analysis on the dispatched character is cheap. -/
inductive EscClass where
  | ctrlN | ctrlR | ctrlT | ctrlB | ctrlV | ctrlF
  | crCont | lfCont | hexX | uniU | octal | verbatim
  deriving DecidableEq, Repr

/-- Dispatch of `read_escaped_char` on the character after the backslash,
in source order. -/
def classifyEsc (c : Char) : EscClass :=
  if c = 'n' then .ctrlN
  else if c = 'r' then .ctrlR
  else if c = 't' then .ctrlT
  else if c = 'b' then .ctrlB
  else if c = 'v' then .ctrlV
  else if c = 'f' then .ctrlF
  else if c = '\r' then .crCont
  else if c = '\n' ∨ c = '\u2028' ∨ c = '\u2029' then .lfCont
  else if c = 'x' then .hexX
  else if c = 'u' then .uniU
  else if isOctDigit c then .octal
  else .verbatim

/-- `read_escaped_char`: decode one string escape after a backslash.  Returns
`none` for a line continuation.  The cursor is expected on the backslash. -/
def readEscapedChar (inTemplate : Bool) (ctx : Ctx) (st0 : St) :
    Except LexError (Option Char × St) :=
  match st0.bump.cur with
  | none => .error (posSpan st0.pos, .InvalidStrEscape)
  | some c =>
    match classifyEsc c with
    | .ctrlN => .ok (some '\n', st0.bump.bump)
    | .ctrlR => .ok (some '\r', st0.bump.bump)
    | .ctrlT => .ok (some '\t', st0.bump.bump)
    | .ctrlB => .ok (some '\u0008', st0.bump.bump)
    | .ctrlV => .ok (some '\u000b', st0.bump.bump)
    | .ctrlF => .ok (some '\u000c', st0.bump.bump)
    | .crCont =>
      -- a line continuation; CR LF is consumed as a unit
      if st0.bump.bump.cur = some '\n' then .ok (none, st0.bump.bump.bump)
      else .ok (none, st0.bump.bump)
    | .lfCont => .ok (none, st0.bump.bump)
    | .hexX =>
      match readHexChar st0.pos 2 st0.bump.bump with
      | .ok (ch, stx) => .ok (some ch, stx)
      | .error er => .error er
    | .uniU =>
      match readUnicodeEscape st0.pos st0.bump with
      | .ok (ch, stx) => .ok (some ch, stx)
      | .error er => .error er
    | .octal => readEscapedOctal inTemplate ctx st0.pos c st0.bump.bump
    | .verbatim => .ok (some c, st0.bump.bump)

theorem readHexChar_length_le (start count : Nat) (st : St) (c : Char) (st' : St)
    (h : readHexChar start count st = .ok (c, st')) :
    st'.chars.length ≤ st.chars.length := by
  have hle := readInt_length_le 16 count st
  simp only [readHexChar] at h
  repeat' split at h
  all_goals
    first
    | exact Except.noConfusion h
    | (simp only [Except.ok.injEq, Prod.mk.injEq] at h
       rw [← h.2]
       exact hle)

theorem readCodePoint_length_le (st : St) (c : Char) (st' : St)
    (h : readCodePoint st = .ok (c, st')) :
    st'.chars.length ≤ st.chars.length := by
  have hle := readInt_length_le 16 0 st
  simp only [readCodePoint] at h
  repeat' split at h
  all_goals
    first
    | exact Except.noConfusion h
    | (simp only [Except.ok.injEq, Prod.mk.injEq] at h
       rw [← h.2]
       exact hle)

theorem St.eat_length_le (st : St) (c : Char) :
    (st.eat c).2.chars.length ≤ st.chars.length := by
  unfold St.eat
  split
  · exact St.bump_length_le st
  · exact le_refl _

theorem readUnicodeEscape_length_le (start : Nat) (st : St) (c : Char) (st' : St)
    (h : readUnicodeEscape start st = .ok (c, st')) :
    st'.chars.length ≤ st.chars.length := by
  simp only [readUnicodeEscape] at h
  split at h
  next st2 heq =>
    have e1 : st2.chars.length ≤ st.chars.length := by
      have hle := St.eat_length_le st.bump '\x7b'
      rw [heq] at hle
      exact le_trans hle (St.bump_length_le st)
    split at h
    · exact Except.noConfusion h
    next c3 st3 heq2 =>
      have e2 : st3.chars.length ≤ st2.chars.length :=
        readCodePoint_length_le st2 c3 st3 heq2
      split at h
      next st4 heq3 =>
        have e3 : st4.chars.length ≤ st3.chars.length := by
          have hle := St.eat_length_le st3 '\x7d'
          rw [heq3] at hle
          exact hle
        simp only [Except.ok.injEq, Prod.mk.injEq] at h
        rw [← h.2]
        exact le_trans e3 (le_trans e2 e1)
      next st4 heq3 => exact Except.noConfusion h
  next st2 heq =>
    have e1 : st2.chars.length ≤ st.chars.length := by
      have hle := St.eat_length_le st.bump '\x7b'
      rw [heq] at hle
      exact le_trans hle (St.bump_length_le st)
    exact le_trans (readHexChar_length_le _ _ _ _ _ h) e1

theorem readEscapedOctal_length_le (inTemplate : Bool) (ctx : Ctx) (start : Nat)
    (c : Char) (st2 : St) (oc : Option Char) (st' : St)
    (h : readEscapedOctal inTemplate ctx start c st2 = .ok (oc, st')) :
    st'.chars.length ≤ st2.chars.length := by
  have hb1 : st2.bump.chars.length ≤ st2.chars.length := St.bump_length_le _
  have hb2 : st2.bump.bump.chars.length ≤ st2.chars.length :=
    le_trans (St.bump_length_le _) hb1
  unfold readEscapedOctal at h
  repeat' split at h
  all_goals
    first
    | exact Except.noConfusion h
    | (simp only [Except.ok.injEq, Prod.mk.injEq] at h
       rw [← h.2] <;>
         first
         | exact hb1
         | exact hb2)

theorem readEscapedChar_length_le (inTemplate : Bool) (ctx : Ctx) (st : St)
    (oc : Option Char) (st' : St)
    (h : readEscapedChar inTemplate ctx st = .ok (oc, st')) :
    st'.chars.length ≤ st.bump.chars.length := by
  have hb1 : st.bump.bump.chars.length ≤ st.bump.chars.length := St.bump_length_le _
  have hb2 : st.bump.bump.bump.chars.length ≤ st.bump.chars.length :=
    le_trans (St.bump_length_le _) hb1
  unfold readEscapedChar at h
  repeat' split at h
  all_goals
    first
    | exact Except.noConfusion h
    | exact le_trans (readEscapedOctal_length_le _ _ _ _ _ _ _ h) hb1
    | (simp only [Except.ok.injEq, Prod.mk.injEq] at h
       rw [← h.2] <;>
         first
         | exact hb1
         | exact hb2
         | exact le_trans (readHexChar_length_le _ _ _ _ _ (by assumption)) hb1
         | exact readUnicodeEscape_length_le _ _ _ _ (by assumption))

theorem St.cur_chars (st : St) (c : Char) (h : st.cur = some c) :
    ∃ rest, st.chars = c :: rest := by
  cases hc : st.chars with
  | nil => rw [St.cur, hc] at h; exact Option.noConfusion h
  | cons c0 rest =>
    rw [St.cur, hc] at h
    simp only [List.head?, Option.some.injEq] at h
    exact ⟨rest, by rw [h]⟩

theorem St.bump_length_lt_of_cur (st : St) (c : Char) (h : st.cur = some c) :
    st.bump.chars.length < st.chars.length := by
  obtain ⟨rest, hr⟩ := St.cur_chars st c h
  exact St.bump_length_lt st c rest hr

/-! ### Identifiers and keywords -/

/-- Loop of `read_word_as_str` (source lines 466-507).  The word is
accumulated in `acc`; `first` tracks whether the next character is the first
of the word.  The has-escape flag mirrors the source: it is initialised to
`false` and never set, so the returned flag is always `false`. -/
def readWordAsStrGo (ctx : Ctx) (first : Bool) (acc : List Char) (st : St) :
    Except LexError ((String × Bool) × St) :=
  match hcur : st.cur with
  | none => .ok ((String.mk acc, false), st)
  | some c =>
    if isIdentPart c then
      readWordAsStrGo ctx false (acc ++ [c]) st.bump
    else if c = '\\' then
      if !(st.bump.is 'u') then
        .error (posSpan st.pos, .ExpectedUnicodeEscape)
      else
        match hesc : readUnicodeEscape st.pos st.bump with
        | .error er => .error er
        | .ok (ch, st2) =>
          if !(if first then isIdentStart ch else isIdentPart ch) then
            .error (errAt st.pos st2 .InvalidIdentChar)
          else
            readWordAsStrGo ctx false (acc ++ [ch]) st2
    else .ok ((String.mk acc, false), st)
termination_by st.chars.length
decreasing_by
  · exact St.bump_length_lt_of_cur st c hcur
  · calc st2.chars.length
        ≤ st.bump.chars.length := readUnicodeEscape_length_le _ _ _ _ hesc
      _ < st.chars.length := St.bump_length_lt_of_cur st c hcur

/-- `read_word_as_str`: read an identifier-like word, decoding unicode
escapes; returns the decoded word and the (source-lapsed) has-escape flag. -/
def readWordAsStr (ctx : Ctx) (st : St) : Except LexError ((String × Bool) × St) :=
  readWordAsStrGo ctx true [] st

/-- `read_ident_or_keyword` (source lines 438-456): read a word; if it carried
an escape and is reserved in the current context, error, else emit it. -/
def readIdentOrKeyword (ctx : Ctx) (st : St) : Except LexError (Token × St) :=
  match readWordAsStr ctx st with
  | .error er => .error er
  | .ok ((word, hasEscape), st1) =>
    if hasEscape && ctx.isReservedWord word then
      .error (errAt st.pos st1 (.EscapeInReservedWord word))
    else .ok (.Word word, st1)

/-- `may_read_word_as_str` (source lines 458-463): read a word only when the
current character is an identifier-start character. -/
def mayReadWordAsStr (ctx : Ctx) (st : St) :
    Except LexError (Option (String × Bool) × St) :=
  match st.cur with
  | some c =>
    if isIdentStart c then
      match readWordAsStr ctx st with
      | .error er => .error er
      | .ok (w, st1) => .ok (some w, st1)
    else .ok (none, st)
  | none => .ok (none, st)

/-! ### String literals -/

/-- Loop of `read_str_lit` (source lines 565-584): scan to the closing quote,
decoding escapes. `start` is the position of the opening quote. -/
def readStrLitGo (ctx : Ctx) (start : Nat) (quote : Char) (out : List Char)
    (hasEscape : Bool) (st : St) : Except LexError (Token × St) :=
  match hcur : st.cur with
  | none => .error (errAt start st .UnterminatedStrLit)
  | some c =>
    if c = quote then .ok (.Str (String.mk out) hasEscape, st.bump)
    else if c = '\\' then
      match hesc : readEscapedChar false ctx st with
      | .error er => .error er
      | .ok (oc, st2) => readStrLitGo ctx start quote (out ++ oc.toList) true st2
    else if isLineBreak c then .error (errAt start st .UnterminatedStrLit)
    else readStrLitGo ctx start quote (out ++ [c]) hasEscape st.bump
termination_by st.chars.length
decreasing_by
  · calc st2.chars.length
        ≤ st.bump.chars.length := readEscapedChar_length_le _ _ _ _ _ hesc
      _ < st.chars.length := St.bump_length_lt_of_cur st c hcur
  · exact St.bump_length_lt_of_cur st c hcur

/-- `read_str_lit` (source lines 554-587): the cursor is expected on the
opening quote. -/
def readStrLit (ctx : Ctx) (st : St) : Except LexError (Token × St) :=
  readStrLitGo ctx st.pos (st.cur.getD '"') [] false st.bump

/-! ### Regular expressions -/

/-- End of `read_regexp` (source lines 622-638): expects the cursor on the
terminating slash, then reads the flags word. -/
def readRegexpFinish (ctx : Ctx) (start : Nat) (content : List Char) (st : St) :
    Except LexError (Token × St) :=
  if !(st.is '/') then .error (errAt start st .UnterminatedRegxp)
  else
    match mayReadWordAsStr ctx st.bump with
    | .error er => .error er
    | .ok (w, st2) =>
      .ok (.Regex (String.mk content) (match w with | some (f, _) => f | none => ""), st2)

/-- Loop of `read_regexp` (source lines 599-620): scan the regex body tracking
escape and character-class state. -/
def readRegexpGo (ctx : Ctx) (start : Nat) (escaped : Bool) (inClass : Bool)
    (content : List Char) (st : St) : Except LexError (Token × St) :=
  match hcur : st.cur with
  | none => readRegexpFinish ctx start content st
  | some c =>
    if isLineBreak c then .error (errAt start st .UnterminatedRegxp)
    else if escaped then
      readRegexpGo ctx start false inClass (content ++ [c]) st.bump
    else if !inClass && c = '/' then readRegexpFinish ctx start content st
    else
      readRegexpGo ctx start (c = '\\')
        (if c = '[' then true else if c = ']' && inClass then false else inClass)
        (content ++ [c]) st.bump
termination_by st.chars.length
decreasing_by
  all_goals exact St.bump_length_lt_of_cur st c hcur

/-- `read_regexp` (source lines 590-639): the cursor is expected on the
opening slash. -/
def readRegexp (ctx : Ctx) (st : St) : Except LexError (Token × St) :=
  readRegexpGo ctx st.pos false false [] st.bump

/-! ### Template fragments -/

/-- Loop of `read_tmpl_token` (source lines 647-681).  `start` is the position
at which this fragment began, `startOfTpl` the position of the opening
backtick. -/
def readTmplGo (ctx : Ctx) (startOfTpl : Nat) (start : Nat) (out : List Char)
    (st : St) : Except LexError (Token × St) :=
  match hcur : st.cur with
  | none => .error (errAt startOfTpl st .UnterminatedTpl)
  | some c =>
    if c = '\u0060' ∨ (c = '$' ∧ st.peek = some '\x7b') then
      if start = st.pos ∧ st.lastWasTplElement then
        if c = '$' then .ok (.DollarLBrace, st.bump.bump)
        else .ok (.BackQuote, st.bump)
      else .ok (.Template (String.mk out), st)
    else if c = '\\' then
      match hesc : readEscapedChar true ctx st with
      | .error er => .error er
      | .ok (oc, st2) => readTmplGo ctx startOfTpl start (out ++ oc.toList) st2
    else if isLineBreak c then
      -- CR LF contributes a single LF; each terminator sets had_line_break
      if c = '\r' ∧ st.peek = some '\n' then
        readTmplGo ctx startOfTpl start (out ++ ['\n'])
          { st.bump.bump with hadLineBreak := true }
      else
        readTmplGo ctx startOfTpl start (out ++ [c]) { st.bump with hadLineBreak := true }
    else readTmplGo ctx startOfTpl start (out ++ [c]) st.bump
termination_by st.chars.length
decreasing_by
  · calc st2.chars.length
        ≤ st.bump.chars.length := readEscapedChar_length_le _ _ _ _ _ hesc
      _ < st.chars.length := St.bump_length_lt_of_cur st c hcur
  · show st.bump.bump.chars.length < st.chars.length
    exact lt_of_le_of_lt (St.bump_length_le _) (St.bump_length_lt_of_cur st c hcur)
  · show st.bump.chars.length < st.chars.length
    exact St.bump_length_lt_of_cur st c hcur
  · exact St.bump_length_lt_of_cur st c hcur

/-- `read_tmpl_token` (source lines 641-684). -/
def readTmplToken (ctx : Ctx) (startOfTpl : Nat) (st : St) :
    Except LexError (Token × St) :=
  readTmplGo ctx startOfTpl st.pos [] st

/-! ### Whitespace and comments

`skip_space` and `skip_line_comment` live outside the provided sources; they
are modelled from the spec (spec 4.2). -/

/-- Consume characters up to, and not including, the next line terminator. -/
def skipToEol (st : St) : St :=
  match hcur : st.cur with
  | none => st
  | some c => if isLineBreak c then st else skipToEol st.bump
termination_by st.chars.length
decreasing_by exact St.bump_length_lt_of_cur st c hcur

/-- Advance `n` code points. -/
def bumps : Nat → St → St
  | 0, st => st
  | n + 1, st => bumps n st.bump

/-- Modelled from the spec: `skip_line_comment(n)` skips `n` characters of
opener and then the comment text up to the end of the line (spec 4.2); the
terminator itself is left for the whitespace skipper. -/
def skipLineComment (n : Nat) (st : St) : St := skipToEol (bumps n st)

/-- Modelled from the spec: body of a block comment after the opening
characters; reports whether a line terminator was seen (spec 4.2). -/
def skipBlockRest (start : Nat) (sawLb : Bool) (st : St) :
    Except LexError (Bool × St) :=
  match hcur : st.cur with
  | none => .error (errAt start st .UnterminatedBlockComment)
  | some c =>
    if c = '*' ∧ st.peek = some '/' then .ok (sawLb, st.bump.bump)
    else skipBlockRest start (sawLb || isLineBreak c) st.bump
termination_by st.chars.length
decreasing_by exact St.bump_length_lt_of_cur st c hcur

theorem skipToEol_length_le (st : St) : (skipToEol st).chars.length ≤ st.chars.length := by
  induction st using skipToEol.induct with
  | case1 st hcur => rw [skipToEol]; split <;> simp_all
  | case2 st c hcur hlb =>
    rw [skipToEol]
    split
    · simp_all
    next c2 hcur2 =>
      rw [hcur] at hcur2
      obtain rfl : c = c2 := Option.some.inj hcur2
      rw [if_pos hlb]
  | case3 st c hcur hlb ih =>
    rw [skipToEol]
    split
    · exact le_refl _
    next c2 hcur2 =>
      rw [hcur] at hcur2
      obtain rfl : c = c2 := Option.some.inj hcur2
      rw [if_neg hlb]
      exact le_trans ih (St.bump_length_le st)

theorem bumps_length_le (n : Nat) (st : St) :
    (bumps n st).chars.length ≤ st.chars.length := by
  induction n generalizing st with
  | zero => exact le_refl _
  | succ n ih => exact le_trans (ih st.bump) (St.bump_length_le st)

theorem skipLineComment_length_le (n : Nat) (st : St) :
    (skipLineComment n st).chars.length ≤ st.chars.length :=
  le_trans (skipToEol_length_le _) (bumps_length_le n st)

theorem skipBlockRest_length_le (start : Nat) (sawLb : Bool) (st : St) (b : Bool)
    (st2 : St) (h : skipBlockRest start sawLb st = .ok (b, st2)) :
    st2.chars.length ≤ st.chars.length := by
  induction sawLb, st using skipBlockRest.induct start with
  | case1 sawLb st hcur =>
    rw [skipBlockRest] at h
    split at h
    · exact Except.noConfusion h
    · simp_all [St.cur]
  | case2 sawLb st c hcur hstar =>
    rw [skipBlockRest] at h
    split at h
    · exact Except.noConfusion h
    next c2 hcur2 =>
      rw [hcur] at hcur2
      obtain rfl : c = c2 := Option.some.inj hcur2
      rw [if_pos hstar] at h
      simp only [Except.ok.injEq, Prod.mk.injEq] at h
      rw [← h.2]
      exact le_trans (St.bump_length_le _) (St.bump_length_le _)
  | case3 sawLb st c hcur hstar ih =>
    rw [skipBlockRest] at h
    split at h
    · exact Except.noConfusion h
    next c2 hcur2 =>
      rw [hcur] at hcur2
      obtain rfl : c = c2 := Option.some.inj hcur2
      rw [if_neg hstar] at h
      exact le_trans (ih h) (St.bump_length_le st)

/-- Modelled from the spec: `skip_space` (spec 4.2): consume whitespace, line
terminators (setting `had_line_break`), line comments and block comments. -/
def skipSpace (st : St) : Except LexError St :=
  match hcur : st.cur with
  | none => .ok st
  | some c =>
    if isLineBreak c then skipSpace { st.bump with hadLineBreak := true }
    else if isWhitespaceNotLb c then skipSpace st.bump
    else if c = '/' ∧ st.peek = some '/' then skipSpace (skipLineComment 0 st.bump.bump)
    else if c = '/' ∧ st.peek = some '*' then
      match hb : skipBlockRest st.pos false st.bump.bump with
      | .error er => .error er
      | .ok (lb, st2) =>
        skipSpace (if lb then { st2 with hadLineBreak := true } else st2)
    else .ok st
termination_by st.chars.length
decreasing_by
  · show st.bump.chars.length < st.chars.length
    exact St.bump_length_lt_of_cur st c hcur
  · exact St.bump_length_lt_of_cur st c hcur
  · calc (skipLineComment 0 st.bump.bump).chars.length
        ≤ st.bump.bump.chars.length := skipLineComment_length_le _ _
      _ ≤ st.bump.chars.length := St.bump_length_le _
      _ < st.chars.length := St.bump_length_lt_of_cur st c hcur
  · calc (if lb then { st2 with hadLineBreak := true } else st2).chars.length
        = st2.chars.length := by split <;> rfl
      _ ≤ st.bump.bump.chars.length := skipBlockRest_length_le _ _ _ _ _ hb
      _ ≤ st.bump.chars.length := St.bump_length_le _
      _ < st.chars.length := St.bump_length_lt_of_cur st c hcur

/-! ### Numbers

The number scanner lives in `number.rs`, outside the provided sources; it is
modelled from the spec (spec 4.4). -/

/-- Modelled from the spec: a run of decimal digits. -/
def readDecDigits (acc : List Char) (st : St) : List Char × St :=
  match hcur : st.cur with
  | some c => if c.isDigit then readDecDigits (acc ++ [c]) st.bump else (acc, st)
  | none => (acc, st)
termination_by st.chars.length
decreasing_by exact St.bump_length_lt_of_cur st c hcur

/-- Value of a digit string in the given radix. -/
def digitsVal (radix : Nat) (ds : List Char) : Nat :=
  ds.foldl (fun a c => a * radix + (digitVal radix c).getD 0) 0

/-- Modelled from the spec: a number must not be immediately followed by an
identifier-start character or a digit (spec 4.4). -/
def finishNumber (start : Nat) (q : Rat) (st : St) : Except LexError (Rat × St) :=
  match st.cur with
  | some c =>
    if isIdentStart c || c.isDigit then .error (errAt start st .InvalidNumber)
    else .ok (q, st)
  | none => .ok (q, st)

/-- Modelled from the spec: optional fraction after the integer part
(spec 4.4). -/
def readFracPart (ip : List Char) (st : St) : Rat × St :=
  if st.cur = some '.' then
    match readDecDigits [] st.bump with
    | (fs, st2) =>
      ((digitsVal 10 ip : Rat) + (digitsVal 10 fs : Rat) / (10 : Rat) ^ fs.length, st2)
  else ((digitsVal 10 ip : Rat), st)

/-- Modelled from the spec: optional exponent (spec 4.4); at least one digit
must follow the `e`. -/
def readExpPart (start : Nat) (q : Rat) (st : St) : Except LexError (Rat × St) :=
  if st.cur = some 'e' ∨ st.cur = some 'E' then
    match readDecDigits []
        (if st.bump.cur = some '+' ∨ st.bump.cur = some '-' then st.bump.bump else st.bump) with
    | (ds, st2) =>
      if ds.isEmpty then .error (errAt start st2 .InvalidNumber)
      else if st.bump.cur = some '-' then
        .ok (q / (10 : Rat) ^ digitsVal 10 ds, st2)
      else .ok (q * (10 : Rat) ^ digitsVal 10 ds, st2)
  else .ok (q, st)

/-- Modelled from the spec: `read_number` (spec 4.4): decimal with optional
fraction and exponent; a leading zero followed by further digits is a legacy
octal when all digits are octal, a decimal otherwise, and an error in strict
mode. -/
def readNumber (startsWithDot : Bool) (ctx : Ctx) (st : St) :
    Except LexError (Rat × St) :=
  if startsWithDot then
    match readFracPart [] st with
    | (q, st2) =>
      match readExpPart st.pos q st2 with
      | .error er => .error er
      | .ok (q2, st3) => finishNumber st.pos q2 st3
  else
    match readDecDigits [] st with
    | (ints, st1) =>
      if ints.head? = some '0' ∧ 1 < ints.length then
        if ctx.strict then .error (errAt st.pos st1 .LegacyOctal)
        else if ints.all isOctDigit then finishNumber st.pos (digitsVal 8 ints : Rat) st1
        else finishNumber st.pos (digitsVal 10 ints : Rat) st1
      else
        match readFracPart ints st1 with
        | (q, st2) =>
          match readExpPart st.pos q st2 with
          | .error er => .error er
          | .ok (q2, st3) => finishNumber st.pos q2 st3

/-- Modelled from the spec: `read_radix_number` (spec 4.4): cursor on the `0`;
consume `0` and the radix letter, then at least one digit. -/
def readRadixNumber (radix : Nat) (ctx : Ctx) (st : St) :
    Except LexError (Rat × St) :=
  match readInt radix 0 st.bump.bump with
  | (none, st2) => .error (errAt st.pos st2 .InvalidNumber)
  | (some v, st2) => finishNumber st.pos (v : Rat) st2

/-! ### Slash dispatch and the main token reader -/

/-- `read_slash` (source lines 377-390): a regex when expressions are allowed,
otherwise the division operator. -/
def readSlash (ctx : Ctx) (st : St) : Except LexError (Option Token × St) :=
  if st.isExprAllowed then
    match readRegexp ctx st with
    | .error er => .error er
    | .ok (t, st1) => .ok (some t, st1)
  else
    match st.bump.eat '=' with
    | (true, st1) => .ok (some (.AssignOp .DivAssign), st1)
    | (false, st1) => .ok (some (.BinOp .Div), st1)

/-- The arms of the dispatch `match` in `read_token` (source lines 52-272),
reified so that case analysis on the dispatched character is cheap. -/
inductive TokClass where
  | ident | dot | punct | backQuote | colon | zero | digit | quote | slash
  | mulMod | bitAndOr | caret | plusMinus | ltGt | bangEq | tilde | unexpected
  deriving DecidableEq, Repr

/-- Dispatch of `read_token` on the current character, in source order. -/
def classifyTok (c : Char) : TokClass :=
  if c = '\\' || isIdentStart c then .ident
  else if c = '.' then .dot
  else if c = '(' ∨ c = ')' ∨ c = ';' ∨ c = ',' ∨ c = '[' ∨ c = ']' ∨
      c = '\x7b' ∨ c = '\x7d' ∨ c = '@' ∨ c = '?' then .punct
  else if c = '\u0060' then .backQuote
  else if c = ':' then .colon
  else if c = '0' then .zero
  else if '1' ≤ c ∧ c ≤ '9' then .digit
  else if c = '"' ∨ c = '\'' then .quote
  else if c = '/' then .slash
  else if c = '%' ∨ c = '*' then .mulMod
  else if c = '|' ∨ c = '&' then .bitAndOr
  else if c = '^' then .caret
  else if c = '+' ∨ c = '-' then .plusMinus
  else if c = '<' ∨ c = '>' then .ltGt
  else if c = '!' ∨ c = '=' then .bangEq
  else if c = '~' then .tilde
  else .unexpected

/-- The directly emitted punctuator tokens (source lines 83-99). -/
def punctToken (c : Char) : Token :=
  if c = '(' then .LParen
  else if c = ')' then .RParen
  else if c = ';' then .Semi
  else if c = ',' then .Comma
  else if c = '[' then .LBracket
  else if c = ']' then .RBracket
  else if c = '\x7b' then .LBrace
  else if c = '\x7d' then .RBrace
  else if c = '@' then .At
  else .QuestionMark

/-- `read_token` (source lines 45-275), with fuel bounding the recursion that
re-reads a token after skipping an HTML-style comment.  Fuel
`st.chars.length + 1` always suffices; exhausted fuel reports end of input. -/
def readTokenF : Nat → Ctx → St → Except LexError (Option Token × St)
  | 0, _, st => .ok (none, st)
  | fuel + 1, ctx, st =>
    match hcur : st.cur with
    | none => .ok (none, st)
    | some c =>
      match classifyTok c with
      | .ident =>
        (match readIdentOrKeyword ctx st with
         | .error er => .error er
         | .ok (t, st1) => .ok (some t, st1))
      | .dot =>
        (match st.peek with
         | none => .ok (some .Dot, st.bump)
         | some next =>
           if '0' ≤ next ∧ next ≤ '9' then
             match readNumber true ctx st with
             | .error er => .error er
             | .ok (q, st1) => .ok (some (.Num q), st1)
           else if next = '.' ∧ st.bump.peek = some '.' then
             .ok (some .DotDotDot, st.bump.bump.bump)
           else .ok (some .Dot, st.bump))
      | .punct => .ok (some (punctToken c), st.bump)
      | .backQuote => .ok (some .BackQuote, st.bump)
      | .colon =>
        if ctx.fnBind && st.bump.cur = some ':' then .ok (some .ColonColon, st.bump.bump)
        else .ok (some .Colon, st.bump)
      | .zero =>
        if st.peek = some 'x' ∨ st.peek = some 'X' then
          (match readRadixNumber 16 ctx st with
           | .error er => .error er
           | .ok (q, st1) => .ok (some (.Num q), st1))
        else if st.peek = some 'o' ∨ st.peek = some 'O' then
          (match readRadixNumber 8 ctx st with
           | .error er => .error er
           | .ok (q, st1) => .ok (some (.Num q), st1))
        else if st.peek = some 'b' ∨ st.peek = some 'B' then
          (match readRadixNumber 2 ctx st with
           | .error er => .error er
           | .ok (q, st1) => .ok (some (.Num q), st1))
        else
          (match readNumber false ctx st with
           | .error er => .error er
           | .ok (q, st1) => .ok (some (.Num q), st1))
      | .digit =>
        (match readNumber false ctx st with
         | .error er => .error er
         | .ok (q, st1) => .ok (some (.Num q), st1))
      | .quote =>
        (match readStrLit ctx st with
         | .error er => .error er
         | .ok (t, st1) => .ok (some t, st1))
      | .slash => readSlash ctx st
      | .mulMod =>
        if c = '*' then
          if st.bump.cur = some '*' then
            if st.bump.bump.cur = some '=' then
              .ok (some (.AssignOp .ExpAssign), st.bump.bump.bump)
            else .ok (some (.BinOp .Exp), st.bump.bump)
          else if st.bump.cur = some '=' then
            .ok (some (.AssignOp .MulAssign), st.bump.bump)
          else .ok (some (.BinOp .Mul), st.bump)
        else
          if st.bump.cur = some '=' then
            .ok (some (.AssignOp .ModAssign), st.bump.bump)
          else .ok (some (.BinOp .Mod), st.bump)
      | .bitAndOr =>
        if st.bump.cur = some '=' then
          .ok (some (.AssignOp (if c = '&' then .BitAndAssign else .BitOrAssign)),
            st.bump.bump)
        else if st.bump.cur = some c then
          .ok (some (.BinOp (if c = '&' then .LogicalAnd else .LogicalOr)), st.bump.bump)
        else .ok (some (.BinOp (if c = '&' then .BitAnd else .BitOr)), st.bump)
      | .caret =>
        if st.bump.cur = some '=' then .ok (some (.AssignOp .BitXorAssign), st.bump.bump)
        else .ok (some (.BinOp .BitXor), st.bump)
      | .plusMinus =>
        if st.bump.cur = some c then
          if st.hadLineBreak && c = '-' && st.bump.bump.cur = some '>' then
            -- the legacy HTML comment closer
            if ctx.module then .error (errAt st.pos st.bump.bump.bump .LegacyCommentInModule)
            else
              match skipSpace (skipLineComment 0 st.bump.bump.bump) with
              | .error er => .error er
              | .ok st1 => readTokenF fuel ctx st1
          else .ok (some (if c = '+' then .PlusPlus else .MinusMinus), st.bump.bump)
        else if st.bump.cur = some '=' then
          .ok (some (.AssignOp (if c = '+' then .AddAssign else .SubAssign)), st.bump.bump)
        else .ok (some (.BinOp (if c = '+' then .Add else .Sub)), st.bump)
      | .ltGt =>
        -- read_token_lt_gt (source lines 392-435), inlined for the recursion
        if ctx.module = false ∧ c = '<' ∧ st.bump.cur = some '!' ∧
            st.bump.peek = some '-' ∧ st.bump.peekAhead = some '-' then
          match skipSpace (skipLineComment 3 st.bump) with
          | .error er => .error er
          | .ok st1 => readTokenF fuel ctx st1
        else if st.bump.cur = some c then
          if c = '>' ∧ st.bump.bump.cur = some '>' then
            if st.bump.bump.bump.cur = some '=' then
              .ok (some (.AssignOp .ZeroFillRShiftAssign), st.bump.bump.bump.bump)
            else .ok (some (.BinOp .ZeroFillRShift), st.bump.bump.bump)
          else if st.bump.bump.cur = some '=' then
            .ok (some (.AssignOp (if c = '<' then .LShiftAssign else .RShiftAssign)),
              st.bump.bump.bump)
          else .ok (some (.BinOp (if c = '<' then .LShift else .RShift)), st.bump.bump)
        else if st.bump.cur = some '=' then
          .ok (some (.BinOp (if c = '<' then .LtEq else .GtEq)), st.bump.bump)
        else .ok (some (.BinOp (if c = '<' then .Lt else .Gt)), st.bump)
      | .bangEq =>
        if st.bump.cur = some '=' then
          if st.bump.bump.cur = some '=' then
            .ok (some (.BinOp (if c = '!' then .NotEqEq else .EqEqEq)), st.bump.bump.bump)
          else .ok (some (.BinOp (if c = '!' then .NotEq else .EqEq)), st.bump.bump)
        else if c = '=' ∧ st.bump.cur = some '>' then .ok (some .Arrow, st.bump.bump)
        else if c = '!' then .ok (some .Bang, st.bump)
        else .ok (some (.AssignOp .Assign), st.bump)
      | .tilde => .ok (some .Tilde, st.bump)
      | .unexpected => .error (posSpan st.pos, .UnexpectedChar c)

/-! ### One-step equations for the scanning loops

Conditional rewriting equations, used both to evaluate the scanners on
concrete inputs and in the inductive proofs below. -/

theorem readIntGo_stop (radix len count total : Nat) (st : St) (c : Char)
    (h : st.cur = some c) (hstop : len ≠ 0 ∧ count = len) :
    readIntGo radix len count total st = (count, total, st) := by
  obtain ⟨rest, hr⟩ := St.cur_chars st c h
  rw [readIntGo_cons radix len count total st c rest hr, if_pos hstop]

theorem readIntGo_digit (radix len count total : Nat) (st : St) (c : Char) (v : Nat)
    (h : st.cur = some c) (hstop : ¬(len ≠ 0 ∧ count = len))
    (hd : digitVal radix c = some v) :
    readIntGo radix len count total st =
      readIntGo radix len (count + 1) (total * radix + v) st.bump := by
  obtain ⟨rest, hr⟩ := St.cur_chars st c h
  rw [readIntGo_cons radix len count total st c rest hr, if_neg hstop, hd]

theorem readIntGo_nondigit (radix len count total : Nat) (st : St) (c : Char)
    (h : st.cur = some c) (hstop : ¬(len ≠ 0 ∧ count = len))
    (hd : digitVal radix c = none) :
    readIntGo radix len count total st = (count, total, st) := by
  obtain ⟨rest, hr⟩ := St.cur_chars st c h
  rw [readIntGo_cons radix len count total st c rest hr, if_neg hstop, hd]

theorem readIntGo_eof (radix len count total : Nat) (st : St) (h : st.cur = none) :
    readIntGo radix len count total st = (count, total, st) := by
  have : st.chars = [] := by
    cases hc : st.chars with
    | nil => rfl
    | cons a l => rw [St.cur, hc] at h; exact Option.noConfusion h
  exact readIntGo_nil radix len count total st this

theorem readWordAsStrGo_eof (ctx : Ctx) (first : Bool) (acc : List Char) (st : St)
    (h : st.cur = none) :
    readWordAsStrGo ctx first acc st = .ok ((String.mk acc, false), st) := by
  conv_lhs => rw [readWordAsStrGo.eq_def]
  split
  · rfl
  next c2 hcur2 => rw [h] at hcur2; exact Option.noConfusion hcur2

theorem readWordAsStrGo_part (ctx : Ctx) (first : Bool) (acc : List Char) (st : St)
    (c : Char) (h : st.cur = some c) (hpart : isIdentPart c = true) :
    readWordAsStrGo ctx first acc st = readWordAsStrGo ctx false (acc ++ [c]) st.bump := by
  conv_lhs => rw [readWordAsStrGo.eq_def]
  split
  next hcur2 => rw [h] at hcur2 <;> exact Option.noConfusion hcur2
  next c2 hcur2 =>
    rw [h] at hcur2
    obtain rfl : c = c2 := Option.some.inj hcur2
    rw [if_pos hpart]

theorem readWordAsStrGo_stop (ctx : Ctx) (first : Bool) (acc : List Char) (st : St)
    (c : Char) (h : st.cur = some c) (hpart : isIdentPart c = false) (hbs : c ≠ '\\') :
    readWordAsStrGo ctx first acc st = .ok ((String.mk acc, false), st) := by
  conv_lhs => rw [readWordAsStrGo.eq_def]
  split
  next hcur2 => rw [h] at hcur2 <;> exact Option.noConfusion hcur2
  next c2 hcur2 =>
    rw [h] at hcur2
    obtain rfl : c = c2 := Option.some.inj hcur2
    simp [hpart, hbs]

theorem readWordAsStrGo_esc_not_u (ctx : Ctx) (first : Bool) (acc : List Char) (st : St)
    (h : st.cur = some '\\') (hu : st.bump.is 'u' = false) :
    readWordAsStrGo ctx first acc st = .error (posSpan st.pos, .ExpectedUnicodeEscape) := by
  conv_lhs => rw [readWordAsStrGo.eq_def]
  split
  next hcur2 => rw [h] at hcur2 <;> exact Option.noConfusion hcur2
  next c2 hcur2 =>
    rw [h] at hcur2
    obtain rfl : c2 = '\\' := (Option.some.inj hcur2).symm
    rw [if_neg (by simp [isIdentPart, isIdentStart]), if_pos rfl, hu]
    simp

theorem readWordAsStrGo_esc_err (ctx : Ctx) (first : Bool) (acc : List Char) (st : St)
    (er : LexError) (h : st.cur = some '\\') (hu : st.bump.is 'u' = true)
    (hesc : readUnicodeEscape st.pos st.bump = .error er) :
    readWordAsStrGo ctx first acc st = .error er := by
  conv_lhs => rw [readWordAsStrGo.eq_def]
  split
  next hcur2 => rw [h] at hcur2 <;> exact Option.noConfusion hcur2
  next c2 hcur2 =>
    rw [h] at hcur2
    obtain rfl : c2 = '\\' := (Option.some.inj hcur2).symm
    rw [if_neg (by simp [isIdentPart, isIdentStart]), if_pos rfl, hu]
    simp only [Bool.not_true, Bool.false_eq_true, if_false]
    rw [hesc]

theorem readWordAsStrGo_esc_ok (ctx : Ctx) (first : Bool) (acc : List Char) (st : St)
    (ch : Char) (st2 : St) (h : st.cur = some '\\') (hu : st.bump.is 'u' = true)
    (hesc : readUnicodeEscape st.pos st.bump = .ok (ch, st2))
    (hvalid : (if first then isIdentStart ch else isIdentPart ch) = true) :
    readWordAsStrGo ctx first acc st = readWordAsStrGo ctx false (acc ++ [ch]) st2 := by
  conv_lhs => rw [readWordAsStrGo.eq_def]
  split
  next hcur2 => rw [h] at hcur2 <;> exact Option.noConfusion hcur2
  next c2 hcur2 =>
    rw [h] at hcur2
    obtain rfl : c2 = '\\' := (Option.some.inj hcur2).symm
    rw [if_neg (by simp [isIdentPart, isIdentStart]), if_pos rfl, hu]
    simp only [Bool.not_true, Bool.false_eq_true, if_false]
    rw [hesc]
    simp only [hvalid, Bool.not_true, Bool.false_eq_true, if_false]

theorem readWordAsStrGo_esc_invalid (ctx : Ctx) (first : Bool) (acc : List Char) (st : St)
    (ch : Char) (st2 : St) (h : st.cur = some '\\') (hu : st.bump.is 'u' = true)
    (hesc : readUnicodeEscape st.pos st.bump = .ok (ch, st2))
    (hvalid : (if first then isIdentStart ch else isIdentPart ch) = false) :
    readWordAsStrGo ctx first acc st = .error (errAt st.pos st2 .InvalidIdentChar) := by
  conv_lhs => rw [readWordAsStrGo.eq_def]
  split
  next hcur2 => rw [h] at hcur2 <;> exact Option.noConfusion hcur2
  next c2 hcur2 =>
    rw [h] at hcur2
    obtain rfl : c2 = '\\' := (Option.some.inj hcur2).symm
    rw [if_neg (by simp [isIdentPart, isIdentStart]), if_pos rfl, hu]
    simp only [Bool.not_true, Bool.false_eq_true, if_false]
    rw [hesc]
    simp only [hvalid, Bool.not_false, if_true]

/-! ### Digit and character-class facts -/

/-- The numeric value of a hex digit. -/
def hexVal (c : Char) : Nat := (digitVal 16 c).getD 0

theorem digitVal_bounds (radix : Nat) (c : Char) (v : Nat)
    (h : digitVal radix c = some v) :
    v < radix ∧ 48 ≤ c.toNat ∧ c.toNat ≤ 122 := by
  unfold digitVal at h
  split_ifs at h <;>
    first
    | exact Option.noConfusion h
    | (obtain rfl := Option.some.inj h; omega)

theorem isOctDigit_toNat (c : Char) (h : isOctDigit c = true) :
    48 ≤ c.toNat ∧ c.toNat ≤ 55 := by
  rw [isOctDigit] at h
  obtain ⟨v, hv⟩ := Option.isSome_iff_exists.mp h
  unfold digitVal at hv
  split_ifs at hv <;>
    first
    | exact Option.noConfusion hv
    | (obtain rfl := Option.some.inj hv; omega)

theorem isHexDigit_digitVal (c : Char) (h : isHexDigit c = true) :
    digitVal 16 c = some (hexVal c) := by
  rw [isHexDigit] at h
  obtain ⟨v, hv⟩ := Option.isSome_iff_exists.mp h
  rw [hexVal, hv]
  rfl

theorem isHexDigit_lt (c : Char) (h : isHexDigit c = true) : hexVal c < 16 := by
  exact (digitVal_bounds 16 c (hexVal c) (isHexDigit_digitVal c h)).1

theorem isHexDigit_utf8Len (c : Char) (h : isHexDigit c = true) : utf8Len c = 1 := by
  rw [isHexDigit] at h
  obtain ⟨v, hv⟩ := Option.isSome_iff_exists.mp h
  have := digitVal_bounds 16 c v hv
  rw [utf8Len, if_pos (by omega)]

theorem isOctDigit_utf8Len (c : Char) (h : isOctDigit c = true) : utf8Len c = 1 := by
  have := isOctDigit_toNat c h
  rw [utf8Len, if_pos (by omega)]

theorem ne_of_toNat_lt (c d : Char) (h : c.toNat < d.toNat) : c ≠ d := by
  intro he; subst he; omega

theorem ne_of_toNat_gt (c d : Char) (h : d.toNat < c.toNat) : c ≠ d := by
  intro he; subst he; omega

/-- An octal digit is dispatched to the octal arm of `read_escaped_char`. -/
theorem classifyEsc_of_oct (c : Char) (h : isOctDigit c = true) :
    classifyEsc c = .octal := by
  have hb := isOctDigit_toNat c h
  have hne : ∀ d : Char, (d.toNat < 48 ∨ 55 < d.toNat) → ¬ c = d := by
    intro d hd he; subst he; omega
  unfold classifyEsc
  rw [if_neg (hne 'n' (by decide)), if_neg (hne 'r' (by decide)),
    if_neg (hne 't' (by decide)), if_neg (hne 'b' (by decide)),
    if_neg (hne 'v' (by decide)), if_neg (hne 'f' (by decide)),
    if_neg (hne '\r' (by decide)),
    if_neg (by rintro (he | he | he) <;> exact hne _ (by decide) he),
    if_neg (hne 'x' (by decide)), if_neg (hne 'u' (by decide)), if_pos h]

/-- Dispatch equation of `read_escaped_char` for a cursor on a known class. -/
theorem readEscapedChar_dispatch (inTemplate : Bool) (ctx : Ctx) (st0 : St)
    (c : Char) (h : st0.bump.cur = some c) :
    readEscapedChar inTemplate ctx st0 =
      (match classifyEsc c with
       | .ctrlN => .ok (some '\n', st0.bump.bump)
       | .ctrlR => .ok (some '\r', st0.bump.bump)
       | .ctrlT => .ok (some '\t', st0.bump.bump)
       | .ctrlB => .ok (some '\u0008', st0.bump.bump)
       | .ctrlV => .ok (some '\u000b', st0.bump.bump)
       | .ctrlF => .ok (some '\u000c', st0.bump.bump)
       | .crCont =>
         if st0.bump.bump.cur = some '\n' then .ok (none, st0.bump.bump.bump)
         else .ok (none, st0.bump.bump)
       | .lfCont => .ok (none, st0.bump.bump)
       | .hexX =>
         match readHexChar st0.pos 2 st0.bump.bump with
         | .ok (ch, stx) => .ok (some ch, stx)
         | .error er => .error er
       | .uniU =>
         match readUnicodeEscape st0.pos st0.bump with
         | .ok (ch, stx) => .ok (some ch, stx)
         | .error er => .error er
       | .octal => readEscapedOctal inTemplate ctx st0.pos c st0.bump.bump
       | .verbatim => .ok (some c, st0.bump.bump)) := by
  unfold readEscapedChar
  split
  next h2 => rw [h] at h2 <;> exact Option.noConfusion h2
  next c2 h2 =>
    rw [h] at h2
    obtain rfl : c = c2 := Option.some.inj h2
    rfl

/-- `readInt 16 4` on four hex digits consumes exactly those digits. -/
theorem readInt_hex4 (st : St) (d1 d2 d3 d4 : Char) (rest : List Char)
    (hch : st.chars = d1 :: d2 :: d3 :: d4 :: rest)
    (h1 : isHexDigit d1 = true) (h2 : isHexDigit d2 = true)
    (h3 : isHexDigit d3 = true) (h4 : isHexDigit d4 = true) :
    readInt 16 4 st =
      (some (hexVal d1 * 4096 + hexVal d2 * 256 + hexVal d3 * 16 + hexVal d4),
        { st with pos := st.pos + 4, chars := rest }) := by
  have e1 : st.bump = { st with pos := st.pos + 1, chars := d2 :: d3 :: d4 :: rest } := by
    rw [St.bump_cons st d1 _ hch, isHexDigit_utf8Len d1 h1]
  have e2 : ({ st with pos := st.pos + 1, chars := d2 :: d3 :: d4 :: rest } : St).bump =
      { st with pos := st.pos + 2, chars := d3 :: d4 :: rest } := by
    rw [St.bump_cons _ d2 _ rfl, isHexDigit_utf8Len d2 h2]
  have e3 : ({ st with pos := st.pos + 2, chars := d3 :: d4 :: rest } : St).bump =
      { st with pos := st.pos + 3, chars := d4 :: rest } := by
    rw [St.bump_cons _ d3 _ rfl, isHexDigit_utf8Len d3 h3]
  have e4 : ({ st with pos := st.pos + 3, chars := d4 :: rest } : St).bump =
      { st with pos := st.pos + 4, chars := rest } := by
    rw [St.bump_cons _ d4 _ rfl, isHexDigit_utf8Len d4 h4]
  rw [readInt,
    readIntGo_digit 16 4 0 0 st d1 (hexVal d1) (by rw [St.cur, hch]; rfl) (by decide)
      (isHexDigit_digitVal d1 h1), e1,
    readIntGo_digit 16 4 1 _ _ d2 (hexVal d2) (by rw [St.cur]; rfl) (by decide)
      (isHexDigit_digitVal d2 h2), e2,
    readIntGo_digit 16 4 2 _ _ d3 (hexVal d3) (by rw [St.cur]; rfl) (by decide)
      (isHexDigit_digitVal d3 h3), e3,
    readIntGo_digit 16 4 3 _ _ d4 (hexVal d4) (by rw [St.cur]; rfl) (by decide)
      (isHexDigit_digitVal d4 h4), e4]
  have hstop : readIntGo 16 4 4
      ((((0 * 16 + hexVal d1) * 16 + hexVal d2) * 16 + hexVal d3) * 16 + hexVal d4)
      { st with pos := st.pos + 4, chars := rest } =
      (4, (((0 * 16 + hexVal d1) * 16 + hexVal d2) * 16 + hexVal d3) * 16 + hexVal d4,
        { st with pos := st.pos + 4, chars := rest }) := by
    cases rest with
    | nil => exact readIntGo_eof 16 4 4 _ _ rfl
    | cons r rs => exact readIntGo_stop 16 4 4 _ _ r rfl (by omega)
  rw [hstop]
  simp only [if_neg (by omega : ¬ (4 : Nat) = 0)]
  rw [if_neg (by omega)]
  have : (((0 * 16 + hexVal d1) * 16 + hexVal d2) * 16 + hexVal d3) * 16 + hexVal d4 =
      hexVal d1 * 4096 + hexVal d2 * 256 + hexVal d3 * 16 + hexVal d4 := by ring
  rw [this]

theorem St.eat_of_cur_ne (st : St) (c d : Char) (h : st.cur = some c) (hne : c ≠ d) :
    st.eat d = (false, st) := by
  rw [St.eat, St.is, h]
  simp [hne]

theorem St.eat_of_cur_eq (st : St) (d : Char) (h : st.cur = some d) :
    st.eat d = (true, st.bump) := by
  rw [St.eat, St.is, h]
  simp

/-- `read_unicode_escape` on exactly four hex digits: the code unit is decoded
when it is a scalar value, and rejected as `NonUtf8Char` when it is a
surrogate. -/
theorem readUnicodeEscape_hex4 (start : Nat) (st : St) (d1 d2 d3 d4 : Char)
    (rest : List Char) (hch : st.chars = 'u' :: d1 :: d2 :: d3 :: d4 :: rest)
    (h1 : isHexDigit d1 = true) (h2 : isHexDigit d2 = true)
    (h3 : isHexDigit d3 = true) (h4 : isHexDigit d4 = true) :
    readUnicodeEscape start st =
      (if Nat.isValidChar (hexVal d1 * 4096 + hexVal d2 * 256 + hexVal d3 * 16 + hexVal d4) then
        .ok (Char.ofNat (hexVal d1 * 4096 + hexVal d2 * 256 + hexVal d3 * 16 + hexVal d4),
          { st with pos := st.pos + 5, chars := rest })
      else
        .error (⟨start, st.pos + 5⟩,
          .NonUtf8Char (hexVal d1 * 4096 + hexVal d2 * 256 + hexVal d3 * 16 + hexVal d4))) := by
  have hb : st.bump = { st with pos := st.pos + 1, chars := d1 :: d2 :: d3 :: d4 :: rest } := by
    rw [St.bump_cons st 'u' _ hch, show utf8Len 'u' = 1 from by decide]
  have hd1 : d1 ≠ '\x7b' := by
    have := digitVal_bounds 16 d1 (hexVal d1) (isHexDigit_digitVal d1 h1)
    exact ne_of_toNat_lt _ _ (by rw [show Char.toNat '\x7b' = 123 from by decide]; omega)
  simp only [readUnicodeEscape]
  rw [hb, St.eat_of_cur_ne _ d1 _ (by rw [St.cur]; rfl) hd1]
  simp only [Bool.false_eq_true, if_false, readHexChar]
  rw [readInt_hex4 _ d1 d2 d3 d4 rest rfl h1 h2 h3 h4]
  simp only []
  rw [charFromU32]
  have hpos : st.pos + 1 + 4 = st.pos + 5 := by omega
  by_cases hv :
      Nat.isValidChar (hexVal d1 * 4096 + hexVal d2 * 256 + hexVal d3 * 16 + hexVal d4)
  · rw [if_pos hv, if_pos hv]
  · rw [if_neg hv, if_neg hv]
    simp only [errAt, hpos]

/-- `read_escaped_char` on `\uHHHH` with exactly four hex digits: the full
code-unit dichotomy, with the error span starting at the backslash. -/
theorem readEscapedChar_hex4 (inTemplate : Bool) (ctx : Ctx) (st0 : St)
    (d1 d2 d3 d4 : Char) (rest : List Char)
    (hch : st0.chars = '\\' :: 'u' :: d1 :: d2 :: d3 :: d4 :: rest)
    (h1 : isHexDigit d1 = true) (h2 : isHexDigit d2 = true)
    (h3 : isHexDigit d3 = true) (h4 : isHexDigit d4 = true) :
    readEscapedChar inTemplate ctx st0 =
      (if Nat.isValidChar (hexVal d1 * 4096 + hexVal d2 * 256 + hexVal d3 * 16 + hexVal d4) then
        .ok (some (Char.ofNat (hexVal d1 * 4096 + hexVal d2 * 256 + hexVal d3 * 16 + hexVal d4)),
          { st0 with pos := st0.pos + 6, chars := rest })
      else
        .error (⟨st0.pos, st0.pos + 6⟩,
          .NonUtf8Char (hexVal d1 * 4096 + hexVal d2 * 256 + hexVal d3 * 16 + hexVal d4))) := by
  have hb : st0.bump = { st0 with pos := st0.pos + 1, chars := 'u' :: d1 :: d2 :: d3 :: d4 :: rest } := by
    rw [St.bump_cons st0 '\\' _ hch, show utf8Len '\\' = 1 from by decide]
  rw [readEscapedChar_dispatch inTemplate ctx st0 'u' (by rw [hb, St.cur]; rfl)]
  rw [show classifyEsc 'u' = EscClass.uniU from by decide]
  simp only []
  rw [hb, readUnicodeEscape_hex4 st0.pos _ d1 d2 d3 d4 rest rfl h1 h2 h3 h4]
  by_cases hv :
      Nat.isValidChar (hexVal d1 * 4096 + hexVal d2 * 256 + hexVal d3 * 16 + hexVal d4)
  · rw [if_pos hv, if_pos hv]
  · rw [if_neg hv, if_neg hv]

/-! ### Concrete states and contexts used in the claim theorems -/

/-- A state with the given byte offset and remaining input, all flags clear. -/
def mkSt (pos : Nat) (cs : List Char) : St := ⟨pos, cs, false, false, false⟩

/-- A sloppy-mode script context in which exactly `if` is reserved. -/
def baseCtx : Ctx := ⟨false, false, false, fun w => w = "if"⟩

/-- A module context in which exactly `if` is reserved. -/
def moduleCtx : Ctx := ⟨false, true, false, fun w => w = "if"⟩

/-! ### C1: the has-escape flag of `read_word_as_str` -/

/-- C1: `read_word_as_str` initialises `has_escape` to `false` and never sets
it.  On the word spelled `\u0061`, a `\u` escape is consumed and the decoded
text `a` differs from the raw slice, yet the returned flag is still `false` —
the code contradicts the specified flag semantics. -/
theorem readWordAsStr_escape_sets_no_flag :
    readWordAsStr baseCtx (mkSt 0 ['\\', 'u', '0', '0', '6', '1']) =
      .ok (("a", false), mkSt 6 []) ∧
    String.mk ['\\', 'u', '0', '0', '6', '1'] ≠ "a" := by
  constructor
  · have hesc : readUnicodeEscape (mkSt 0 ['\\', 'u', '0', '0', '6', '1']).pos
        (mkSt 0 ['\\', 'u', '0', '0', '6', '1']).bump = .ok ('a', mkSt 6 []) := by
      have hb : (mkSt 0 ['\\', 'u', '0', '0', '6', '1']).bump =
          mkSt 1 ['u', '0', '0', '6', '1'] := by decide
      rw [hb]
      rw [readUnicodeEscape_hex4 _ _ '0' '0' '6' '1' [] rfl (by decide) (by decide)
        (by decide) (by decide)]
      decide
    rw [readWordAsStr,
      readWordAsStrGo_esc_ok baseCtx true [] _ 'a' (mkSt 6 []) (by decide) (by decide)
        hesc (by decide)]
    simp only [List.nil_append]
    rw [readWordAsStrGo_eof baseCtx false ['a'] (mkSt 6 []) (by decide)]
  · decide

/-! ### C4: `\uHHHH` code units -/

/-- C4 (amended): a `\uHHHH` escape with exactly four hex digits decodes to
the code unit with that value whenever it is a Unicode scalar value; for the
surrogate code units (and only those, among four-digit values) the scanner
returns a `NonUtf8Char` error whose span starts at the backslash. -/
theorem readEscapedChar_hex4_code_unit (inTemplate : Bool) (ctx : Ctx) (st0 : St)
    (d1 d2 d3 d4 : Char) (rest : List Char)
    (hch : st0.chars = '\\' :: 'u' :: d1 :: d2 :: d3 :: d4 :: rest)
    (h1 : isHexDigit d1 = true) (h2 : isHexDigit d2 = true)
    (h3 : isHexDigit d3 = true) (h4 : isHexDigit d4 = true) :
    readEscapedChar inTemplate ctx st0 =
      (if Nat.isValidChar (hexVal d1 * 4096 + hexVal d2 * 256 + hexVal d3 * 16 + hexVal d4) then
        .ok (some (Char.ofNat (hexVal d1 * 4096 + hexVal d2 * 256 + hexVal d3 * 16 + hexVal d4)),
          { st0 with pos := st0.pos + 6, chars := rest })
      else
        .error (⟨st0.pos, st0.pos + 6⟩,
          .NonUtf8Char (hexVal d1 * 4096 + hexVal d2 * 256 + hexVal d3 * 16 + hexVal d4))) :=
  readEscapedChar_hex4 inTemplate ctx st0 d1 d2 d3 d4 rest hch h1 h2 h3 h4

/-- Witness for the amended C4 theorem: `\u0041` decodes to `A`. -/
theorem readEscapedChar_hex4_code_unit_witness :
    readEscapedChar false baseCtx (mkSt 0 ['\\', 'u', '0', '0', '4', '1']) =
      .ok (some 'A', mkSt 6 []) := by
  rw [readEscapedChar_hex4_code_unit false baseCtx _ '0' '0' '4' '1' [] rfl (by decide)
    (by decide) (by decide) (by decide)]
  decide

/-- C4 (counterexample): the claim promises success for every four-digit value
including surrogates, but `\uD800` is rejected with `NonUtf8Char`. -/
theorem readEscapedChar_surrogate_rejected :
    readEscapedChar false baseCtx (mkSt 0 ['\\', 'u', 'D', '8', '0', '0']) =
      .error (⟨0, 6⟩, .NonUtf8Char 0xD800) := by
  rw [readEscapedChar_hex4 false baseCtx _ 'D' '8' '0' '0' [] rfl (by decide) (by decide)
    (by decide) (by decide)]
  decide

/-! ### C6: reserved words spelled with escapes -/

/-- C6: because `read_word_as_str` never reports an escape (C1), the
`EscapeInReservedWord` check in `read_ident_or_keyword` is unreachable: the
word spelled `\u0069f` decodes to the reserved word `if`, contains an escape,
and is nevertheless emitted as a `Word` token instead of an error. -/
theorem readIdentOrKeyword_escaped_reserved_emitted :
    baseCtx.isReservedWord "if" = true ∧
    readIdentOrKeyword baseCtx (mkSt 0 ['\\', 'u', '0', '0', '6', '9', 'f']) =
      .ok (.Word "if", mkSt 7 []) := by
  constructor
  · decide
  · have hesc : readUnicodeEscape (mkSt 0 ['\\', 'u', '0', '0', '6', '9', 'f']).pos
        (mkSt 0 ['\\', 'u', '0', '0', '6', '9', 'f']).bump = .ok ('i', mkSt 6 ['f']) := by
      have hb : (mkSt 0 ['\\', 'u', '0', '0', '6', '9', 'f']).bump =
          mkSt 1 ['u', '0', '0', '6', '9', 'f'] := by decide
      rw [hb]
      rw [readUnicodeEscape_hex4 _ _ '0' '0' '6' '9' ['f'] rfl (by decide) (by decide)
        (by decide) (by decide)]
      decide
    rw [readIdentOrKeyword, readWordAsStr,
      readWordAsStrGo_esc_ok baseCtx true [] _ 'i' (mkSt 6 ['f']) (by decide) (by decide)
        hesc (by decide)]
    simp only [List.nil_append]
    rw [readWordAsStrGo_part baseCtx false ['i'] (mkSt 6 ['f']) 'f' (by decide) (by decide),
      show (mkSt 6 ['f']).bump = mkSt 7 [] from by decide,
      readWordAsStrGo_eof baseCtx false (['i'] ++ ['f']) (mkSt 7 []) (by decide)]
    decide

/-! ### Branch equations for `read_token` -/

theorem readTokenF_eof (fuel : Nat) (ctx : Ctx) (st : St) (h : st.cur = none) :
    readTokenF (fuel + 1) ctx st = .ok (none, st) := by
  simp only [readTokenF]
  split
  · rfl
  next c2 h2 => rw [h] at h2 <;> exact Option.noConfusion h2

theorem readTokenF_ident (fuel : Nat) (ctx : Ctx) (st : St) (c : Char)
    (h : st.cur = some c) (hcl : classifyTok c = .ident) :
    readTokenF (fuel + 1) ctx st =
      ((match readIdentOrKeyword ctx st with
       | .error er => .error er
       | .ok (t, st1) => .ok (some t, st1))) := by
  simp only [readTokenF]
  split
  next h2 => rw [h] at h2 <;> exact Option.noConfusion h2
  next c2 h2 =>
    rw [h] at h2
    obtain rfl : c = c2 := Option.some.inj h2
    rw [hcl]

theorem readTokenF_dot (fuel : Nat) (ctx : Ctx) (st : St) (c : Char)
    (h : st.cur = some c) (hcl : classifyTok c = .dot) :
    readTokenF (fuel + 1) ctx st =
      ((match st.peek with
       | none => .ok (some .Dot, st.bump)
       | some next =>
         if '0' ≤ next ∧ next ≤ '9' then
           match readNumber true ctx st with
           | .error er => .error er
           | .ok (q, st1) => .ok (some (.Num q), st1)
         else if next = '.' ∧ st.bump.peek = some '.' then
           .ok (some .DotDotDot, st.bump.bump.bump)
         else .ok (some .Dot, st.bump))) := by
  simp only [readTokenF]
  split
  next h2 => rw [h] at h2 <;> exact Option.noConfusion h2
  next c2 h2 =>
    rw [h] at h2
    obtain rfl : c = c2 := Option.some.inj h2
    rw [hcl]

theorem readTokenF_punct (fuel : Nat) (ctx : Ctx) (st : St) (c : Char)
    (h : st.cur = some c) (hcl : classifyTok c = .punct) :
    readTokenF (fuel + 1) ctx st =
      (.ok (some (punctToken c), st.bump)) := by
  simp only [readTokenF]
  split
  next h2 => rw [h] at h2 <;> exact Option.noConfusion h2
  next c2 h2 =>
    rw [h] at h2
    obtain rfl : c = c2 := Option.some.inj h2
    rw [hcl]

theorem readTokenF_backQuote (fuel : Nat) (ctx : Ctx) (st : St) (c : Char)
    (h : st.cur = some c) (hcl : classifyTok c = .backQuote) :
    readTokenF (fuel + 1) ctx st =
      (.ok (some .BackQuote, st.bump)) := by
  simp only [readTokenF]
  split
  next h2 => rw [h] at h2 <;> exact Option.noConfusion h2
  next c2 h2 =>
    rw [h] at h2
    obtain rfl : c = c2 := Option.some.inj h2
    rw [hcl]

theorem readTokenF_colon (fuel : Nat) (ctx : Ctx) (st : St) (c : Char)
    (h : st.cur = some c) (hcl : classifyTok c = .colon) :
    readTokenF (fuel + 1) ctx st =
      (if ctx.fnBind && st.bump.cur = some ':' then .ok (some .ColonColon, st.bump.bump)
      else .ok (some .Colon, st.bump)) := by
  simp only [readTokenF]
  split
  next h2 => rw [h] at h2 <;> exact Option.noConfusion h2
  next c2 h2 =>
    rw [h] at h2
    obtain rfl : c = c2 := Option.some.inj h2
    rw [hcl]

theorem readTokenF_zero (fuel : Nat) (ctx : Ctx) (st : St) (c : Char)
    (h : st.cur = some c) (hcl : classifyTok c = .zero) :
    readTokenF (fuel + 1) ctx st =
      (if st.peek = some 'x' ∨ st.peek = some 'X' then
        (match readRadixNumber 16 ctx st with
         | .error er => .error er
         | .ok (q, st1) => .ok (some (.Num q), st1))
      else if st.peek = some 'o' ∨ st.peek = some 'O' then
        (match readRadixNumber 8 ctx st with
         | .error er => .error er
         | .ok (q, st1) => .ok (some (.Num q), st1))
      else if st.peek = some 'b' ∨ st.peek = some 'B' then
        (match readRadixNumber 2 ctx st with
         | .error er => .error er
         | .ok (q, st1) => .ok (some (.Num q), st1))
      else
        (match readNumber false ctx st with
         | .error er => .error er
         | .ok (q, st1) => .ok (some (.Num q), st1))) := by
  simp only [readTokenF]
  split
  next h2 => rw [h] at h2 <;> exact Option.noConfusion h2
  next c2 h2 =>
    rw [h] at h2
    obtain rfl : c = c2 := Option.some.inj h2
    rw [hcl]

theorem readTokenF_digit (fuel : Nat) (ctx : Ctx) (st : St) (c : Char)
    (h : st.cur = some c) (hcl : classifyTok c = .digit) :
    readTokenF (fuel + 1) ctx st =
      ((match readNumber false ctx st with
       | .error er => .error er
       | .ok (q, st1) => .ok (some (.Num q), st1))) := by
  simp only [readTokenF]
  split
  next h2 => rw [h] at h2 <;> exact Option.noConfusion h2
  next c2 h2 =>
    rw [h] at h2
    obtain rfl : c = c2 := Option.some.inj h2
    rw [hcl]

theorem readTokenF_quote (fuel : Nat) (ctx : Ctx) (st : St) (c : Char)
    (h : st.cur = some c) (hcl : classifyTok c = .quote) :
    readTokenF (fuel + 1) ctx st =
      ((match readStrLit ctx st with
       | .error er => .error er
       | .ok (t, st1) => .ok (some t, st1))) := by
  simp only [readTokenF]
  split
  next h2 => rw [h] at h2 <;> exact Option.noConfusion h2
  next c2 h2 =>
    rw [h] at h2
    obtain rfl : c = c2 := Option.some.inj h2
    rw [hcl]

theorem readTokenF_slash (fuel : Nat) (ctx : Ctx) (st : St) (c : Char)
    (h : st.cur = some c) (hcl : classifyTok c = .slash) :
    readTokenF (fuel + 1) ctx st =
      (readSlash ctx st) := by
  simp only [readTokenF]
  split
  next h2 => rw [h] at h2 <;> exact Option.noConfusion h2
  next c2 h2 =>
    rw [h] at h2
    obtain rfl : c = c2 := Option.some.inj h2
    rw [hcl]

theorem readTokenF_mulMod (fuel : Nat) (ctx : Ctx) (st : St) (c : Char)
    (h : st.cur = some c) (hcl : classifyTok c = .mulMod) :
    readTokenF (fuel + 1) ctx st =
      (if c = '*' then
        if st.bump.cur = some '*' then
          if st.bump.bump.cur = some '=' then
            .ok (some (.AssignOp .ExpAssign), st.bump.bump.bump)
          else .ok (some (.BinOp .Exp), st.bump.bump)
        else if st.bump.cur = some '=' then
          .ok (some (.AssignOp .MulAssign), st.bump.bump)
        else .ok (some (.BinOp .Mul), st.bump)
      else
        if st.bump.cur = some '=' then
          .ok (some (.AssignOp .ModAssign), st.bump.bump)
        else .ok (some (.BinOp .Mod), st.bump)) := by
  simp only [readTokenF]
  split
  next h2 => rw [h] at h2 <;> exact Option.noConfusion h2
  next c2 h2 =>
    rw [h] at h2
    obtain rfl : c = c2 := Option.some.inj h2
    rw [hcl]

theorem readTokenF_bitAndOr (fuel : Nat) (ctx : Ctx) (st : St) (c : Char)
    (h : st.cur = some c) (hcl : classifyTok c = .bitAndOr) :
    readTokenF (fuel + 1) ctx st =
      (if st.bump.cur = some '=' then
        .ok (some (.AssignOp (if c = '&' then .BitAndAssign else .BitOrAssign)),
          st.bump.bump)
      else if st.bump.cur = some c then
        .ok (some (.BinOp (if c = '&' then .LogicalAnd else .LogicalOr)), st.bump.bump)
      else .ok (some (.BinOp (if c = '&' then .BitAnd else .BitOr)), st.bump)) := by
  simp only [readTokenF]
  split
  next h2 => rw [h] at h2 <;> exact Option.noConfusion h2
  next c2 h2 =>
    rw [h] at h2
    obtain rfl : c = c2 := Option.some.inj h2
    rw [hcl]

theorem readTokenF_caret (fuel : Nat) (ctx : Ctx) (st : St) (c : Char)
    (h : st.cur = some c) (hcl : classifyTok c = .caret) :
    readTokenF (fuel + 1) ctx st =
      (if st.bump.cur = some '=' then .ok (some (.AssignOp .BitXorAssign), st.bump.bump)
      else .ok (some (.BinOp .BitXor), st.bump)) := by
  simp only [readTokenF]
  split
  next h2 => rw [h] at h2 <;> exact Option.noConfusion h2
  next c2 h2 =>
    rw [h] at h2
    obtain rfl : c = c2 := Option.some.inj h2
    rw [hcl]

theorem readTokenF_plusMinus (fuel : Nat) (ctx : Ctx) (st : St) (c : Char)
    (h : st.cur = some c) (hcl : classifyTok c = .plusMinus) :
    readTokenF (fuel + 1) ctx st =
      (if st.bump.cur = some c then
        if st.hadLineBreak && c = '-' && st.bump.bump.cur = some '>' then
          -- the legacy HTML comment closer
          if ctx.module then .error (errAt st.pos st.bump.bump.bump .LegacyCommentInModule)
          else
            match skipSpace (skipLineComment 0 st.bump.bump.bump) with
            | .error er => .error er
            | .ok st1 => readTokenF fuel ctx st1
        else .ok (some (if c = '+' then .PlusPlus else .MinusMinus), st.bump.bump)
      else if st.bump.cur = some '=' then
        .ok (some (.AssignOp (if c = '+' then .AddAssign else .SubAssign)), st.bump.bump)
      else .ok (some (.BinOp (if c = '+' then .Add else .Sub)), st.bump)) := by
  simp only [readTokenF]
  split
  next h2 => rw [h] at h2 <;> exact Option.noConfusion h2
  next c2 h2 =>
    rw [h] at h2
    obtain rfl : c = c2 := Option.some.inj h2
    rw [hcl]

theorem readTokenF_ltGt (fuel : Nat) (ctx : Ctx) (st : St) (c : Char)
    (h : st.cur = some c) (hcl : classifyTok c = .ltGt) :
    readTokenF (fuel + 1) ctx st =
      ( -- read_token_lt_gt (source lines 392-435), inlined for the recursion
      if ctx.module = false ∧ c = '<' ∧ st.bump.cur = some '!' ∧
          st.bump.peek = some '-' ∧ st.bump.peekAhead = some '-' then
        match skipSpace (skipLineComment 3 st.bump) with
        | .error er => .error er
        | .ok st1 => readTokenF fuel ctx st1
      else if st.bump.cur = some c then
        if c = '>' ∧ st.bump.bump.cur = some '>' then
          if st.bump.bump.bump.cur = some '=' then
            .ok (some (.AssignOp .ZeroFillRShiftAssign), st.bump.bump.bump.bump)
          else .ok (some (.BinOp .ZeroFillRShift), st.bump.bump.bump)
        else if st.bump.bump.cur = some '=' then
          .ok (some (.AssignOp (if c = '<' then .LShiftAssign else .RShiftAssign)),
            st.bump.bump.bump)
        else .ok (some (.BinOp (if c = '<' then .LShift else .RShift)), st.bump.bump)
      else if st.bump.cur = some '=' then
        .ok (some (.BinOp (if c = '<' then .LtEq else .GtEq)), st.bump.bump)
      else .ok (some (.BinOp (if c = '<' then .Lt else .Gt)), st.bump)) := by
  simp only [readTokenF]
  split
  next h2 => rw [h] at h2 <;> exact Option.noConfusion h2
  next c2 h2 =>
    rw [h] at h2
    obtain rfl : c = c2 := Option.some.inj h2
    rw [hcl]

theorem readTokenF_bangEq (fuel : Nat) (ctx : Ctx) (st : St) (c : Char)
    (h : st.cur = some c) (hcl : classifyTok c = .bangEq) :
    readTokenF (fuel + 1) ctx st =
      (if st.bump.cur = some '=' then
        if st.bump.bump.cur = some '=' then
          .ok (some (.BinOp (if c = '!' then .NotEqEq else .EqEqEq)), st.bump.bump.bump)
        else .ok (some (.BinOp (if c = '!' then .NotEq else .EqEq)), st.bump.bump)
      else if c = '=' ∧ st.bump.cur = some '>' then .ok (some .Arrow, st.bump.bump)
      else if c = '!' then .ok (some .Bang, st.bump)
      else .ok (some (.AssignOp .Assign), st.bump)) := by
  simp only [readTokenF]
  split
  next h2 => rw [h] at h2 <;> exact Option.noConfusion h2
  next c2 h2 =>
    rw [h] at h2
    obtain rfl : c = c2 := Option.some.inj h2
    rw [hcl]

theorem readTokenF_tilde (fuel : Nat) (ctx : Ctx) (st : St) (c : Char)
    (h : st.cur = some c) (hcl : classifyTok c = .tilde) :
    readTokenF (fuel + 1) ctx st =
      (.ok (some .Tilde, st.bump)) := by
  simp only [readTokenF]
  split
  next h2 => rw [h] at h2 <;> exact Option.noConfusion h2
  next c2 h2 =>
    rw [h] at h2
    obtain rfl : c = c2 := Option.some.inj h2
    rw [hcl]

theorem readTokenF_unexpected (fuel : Nat) (ctx : Ctx) (st : St) (c : Char)
    (h : st.cur = some c) (hcl : classifyTok c = .unexpected) :
    readTokenF (fuel + 1) ctx st =
      (.error (posSpan st.pos, .UnexpectedChar c)) := by
  simp only [readTokenF]
  split
  next h2 => rw [h] at h2 <;> exact Option.noConfusion h2
  next c2 h2 =>
    rw [h] at h2
    obtain rfl : c = c2 := Option.some.inj h2
    rw [hcl]

/-! ### C3: the HTML comment closer in module mode -/

/-- C3 (amended): after `--` when a line break preceded and the next character
is `>`, a module-mode lexer does not open an HTML comment and does not emit
`--`, `>`: it reports `LegacyCommentInModule` spanning the three characters. -/
theorem readTokenF_htmlClose_in_module (fuel : Nat) (ctx : Ctx) (st : St)
    (rest : List Char) (hm : ctx.module = true) (hlb : st.hadLineBreak = true)
    (hch : st.chars = '-' :: '-' :: '>' :: rest) :
    readTokenF (fuel + 1) ctx st =
      .error (⟨st.pos, st.pos + 3⟩, .LegacyCommentInModule) := by
  have hcur : st.cur = some '-' := by rw [St.cur, hch]; rfl
  have hb1 : st.bump = { st with pos := st.pos + 1, chars := '-' :: '>' :: rest } := by
    rw [St.bump_cons st '-' _ hch, show utf8Len '-' = 1 from by decide]
  have hb2 : ({ st with pos := st.pos + 1, chars := '-' :: '>' :: rest } : St).bump =
      { st with pos := st.pos + 2, chars := '>' :: rest } := by
    rw [St.bump_cons _ '-' _ rfl, show utf8Len '-' = 1 from by decide]
  have hb3 : ({ st with pos := st.pos + 2, chars := '>' :: rest } : St).bump =
      { st with pos := st.pos + 3, chars := rest } := by
    rw [St.bump_cons _ '>' _ rfl, show utf8Len '>' = 1 from by decide]
  have hc1 : ({ st with pos := st.pos + 1, chars := '-' :: '>' :: rest } : St).cur =
      some '-' := rfl
  have hc2 : (st.hadLineBreak && decide ('-' = '-') &&
      decide (({ st with pos := st.pos + 2, chars := '>' :: rest } : St).cur = some '>')) =
      true := by rw [hlb]; rfl
  rw [readTokenF_plusMinus fuel ctx st '-' hcur (by decide), hb1, hb2, hb3]
  rw [if_pos hc1, if_pos hc2, if_pos hm]
  rfl

/-- C3 (witness for the amended theorem): the concrete input `--> x`. -/
theorem readTokenF_htmlClose_in_module_witness :
    readTokenF 1 moduleCtx { mkSt 0 ("--> x".toList) with hadLineBreak := true } =
      .error (⟨0, 3⟩, .LegacyCommentInModule) := by
  have h := readTokenF_htmlClose_in_module 0 moduleCtx
    { mkSt 0 ("--> x".toList) with hadLineBreak := true } (' ' :: ['x']) rfl rfl (by decide)
  simpa using h

/-- C3 (counterexample): on `--> x` with a preceding line break in module
mode, the lexer does not produce the claimed `MinusMinus, Gt, Ident(x)`
sequence with no error; the very first `read_token` call errors. -/
theorem readTokenF_htmlClose_module_counterexample :
    readTokenF 1 moduleCtx { mkSt 0 ("--> x".toList) with hadLineBreak := true } =
      .error (⟨0, 3⟩, .LegacyCommentInModule) ∧
    ∀ r, readTokenF 1 moduleCtx { mkSt 0 ("--> x".toList) with hadLineBreak := true } ≠
      .ok r := by
  have h1 : readTokenF 1 moduleCtx { mkSt 0 ("--> x".toList) with hadLineBreak := true } =
      .error (⟨0, 3⟩, .LegacyCommentInModule) := by
    rw [readTokenF_plusMinus 0 moduleCtx _ '-' (by decide) (by decide)]
    decide
  exact ⟨h1, fun r hr => by rw [h1] at hr; exact Except.noConfusion hr⟩

/-! ### C9: legacy octal escapes -/

/-- The numeric value of an octal digit. -/
def octVal (c : Char) : Nat := (digitVal 8 c).getD 0

theorem isOctDigit_digitVal (c : Char) (h : isOctDigit c = true) :
    digitVal 8 c = some (octVal c) := by
  rw [isOctDigit] at h
  obtain ⟨v, hv⟩ := Option.isSome_iff_exists.mp h
  rw [octVal, hv]
  rfl

theorem octVal_lt (c : Char) (h : isOctDigit c = true) : octVal c < 8 :=
  (digitVal_bounds 8 c (octVal c) (isOctDigit_digitVal c h)).1

/-- C9: a legacy octal escape (non-strict, non-template) reads at most three
octal digits and its value always fits in 8 bits: with three octal digits in
the input, the third is consumed exactly when the two-digit value times 8 plus
it stays at most 255; otherwise the two-digit value is returned and the third
digit is left in the input. -/
theorem readEscapedChar_legacy_octal (ctx : Ctx) (st0 : St) (d1 d2 d3 : Char)
    (rest : List Char) (hs : ctx.strict = false)
    (hch : st0.chars = '\\' :: d1 :: d2 :: d3 :: rest)
    (h1 : isOctDigit d1 = true) (h2 : isOctDigit d2 = true) (h3 : isOctDigit d3 = true) :
    octVal d1 * 8 + octVal d2 ≤ 255 ∧
    readEscapedChar false ctx st0 =
      (if (octVal d1 * 8 + octVal d2) * 8 + octVal d3 ≤ 255 then
        .ok (some (Char.ofNat ((octVal d1 * 8 + octVal d2) * 8 + octVal d3)),
          { st0 with pos := st0.pos + 4, chars := rest })
      else
        .ok (some (Char.ofNat (octVal d1 * 8 + octVal d2)),
          { st0 with pos := st0.pos + 3, chars := d3 :: rest })) := by
  have hv1 := octVal_lt d1 h1
  have hv2 := octVal_lt d2 h2
  refine ⟨by omega, ?_⟩
  have hb1 : st0.bump = { st0 with pos := st0.pos + 1, chars := d1 :: d2 :: d3 :: rest } := by
    rw [St.bump_cons st0 '\\' _ hch, show utf8Len '\\' = 1 from by decide]
  have hb2 : ({ st0 with pos := st0.pos + 1, chars := d1 :: d2 :: d3 :: rest } : St).bump =
      { st0 with pos := st0.pos + 2, chars := d2 :: d3 :: rest } := by
    rw [St.bump_cons _ d1 _ rfl, isOctDigit_utf8Len d1 h1]
  have hb3 : ({ st0 with pos := st0.pos + 2, chars := d2 :: d3 :: rest } : St).bump =
      { st0 with pos := st0.pos + 3, chars := d3 :: rest } := by
    rw [St.bump_cons _ d2 _ rfl, isOctDigit_utf8Len d2 h2]
  have hb4 : ({ st0 with pos := st0.pos + 3, chars := d3 :: rest } : St).bump =
      { st0 with pos := st0.pos + 4, chars := rest } := by
    rw [St.bump_cons _ d3 _ rfl, isOctDigit_utf8Len d3 h3]
  rw [readEscapedChar_dispatch false ctx st0 d1 (by rw [hb1, St.cur]; rfl),
    classifyEsc_of_oct d1 h1]
  simp only []
  rw [hb1, hb2]
  rw [readEscapedOctal]
  have hcur2 : ({ st0 with pos := st0.pos + 2, chars := d2 :: d3 :: rest } : St).cur =
      some d2 := rfl
  rw [if_neg (by simp [hcur2, Option.any, h2])]
  rw [if_neg (by simp : ¬ false = true)]
  rw [if_neg (by simp [hs] : ¬ ctx.strict = true)]
  rw [show ({ st0 with pos := st0.pos + 2, chars := d2 :: d3 :: rest } : St).cur.bind
      (digitVal 8) = some (octVal d2) from by rw [hcur2, Option.bind, isOctDigit_digitVal d2 h2]]
  simp only []
  rw [hb3]
  rw [show ({ st0 with pos := st0.pos + 3, chars := d3 :: rest } : St).cur.bind
      (digitVal 8) = some (octVal d3) from by
    rw [show ({ st0 with pos := st0.pos + 3, chars := d3 :: rest } : St).cur = some d3 from rfl,
      Option.bind, isOctDigit_digitVal d3 h3]]
  simp only [octVal]
  by_cases hle :
      (((digitVal 8 d1).getD 0 * 8 + (digitVal 8 d2).getD 0) * 8 + (digitVal 8 d3).getD 0) ≤ 255
  · rw [if_pos hle, if_pos hle, hb4]
  · rw [if_neg hle, if_neg hle]

/-- Witness for C9: `\101` decodes to `A` consuming all three digits, while
`\777` stops after two digits at value 63 and leaves the third `7`. -/
theorem readEscapedChar_legacy_octal_witness :
    readEscapedChar false baseCtx (mkSt 0 ['\\', '1', '0', '1']) =
      .ok (some 'A', mkSt 4 []) ∧
    readEscapedChar false baseCtx (mkSt 0 ['\\', '7', '7', '7']) =
      .ok (some '?', mkSt 3 ['7']) := by
  constructor
  · have h := (readEscapedChar_legacy_octal baseCtx (mkSt 0 ['\\', '1', '0', '1'])
      '1' '0' '1' [] rfl rfl (by decide) (by decide) (by decide)).2
    rw [h]
    decide
  · have h := (readEscapedChar_legacy_octal baseCtx (mkSt 0 ['\\', '7', '7', '7'])
      '7' '7' '7' [] rfl rfl (by decide) (by decide) (by decide)).2
    rw [h]
    decide

/-! ### C10: a string literal ending in a backslash -/

@[simp] theorem utf8LenList_nil : utf8LenList [] = 0 := rfl

@[simp] theorem utf8LenList_cons (c : Char) (l : List Char) :
    utf8LenList (c :: l) = utf8Len c + utf8LenList l := by
  simp [utf8LenList]

theorem readStrLitGo_esc_err (ctx : Ctx) (start : Nat) (quote : Char) (out : List Char)
    (he : Bool) (st : St) (er : LexError) (h : st.cur = some '\\')
    (hnq : ('\\' : Char) ≠ quote) (hesc : readEscapedChar false ctx st = .error er) :
    readStrLitGo ctx start quote out he st = .error er := by
  conv_lhs => rw [readStrLitGo.eq_def]
  split
  next h2 => rw [h] at h2 <;> exact Option.noConfusion h2
  next c2 h2 =>
    rw [h] at h2
    obtain rfl : c2 = '\\' := (Option.some.inj h2).symm
    rw [if_neg hnq, if_pos rfl, hesc]

theorem readStrLitGo_other (ctx : Ctx) (start : Nat) (quote : Char) (out : List Char)
    (he : Bool) (st : St) (c : Char) (h : st.cur = some c) (hq : c ≠ quote)
    (hb : c ≠ '\\') (hlb : isLineBreak c = false) :
    readStrLitGo ctx start quote out he st =
      readStrLitGo ctx start quote (out ++ [c]) he st.bump := by
  conv_lhs => rw [readStrLitGo.eq_def]
  split
  next h2 => rw [h] at h2 <;> exact Option.noConfusion h2
  next c2 h2 =>
    rw [h] at h2
    obtain rfl : c = c2 := Option.some.inj h2
    rw [if_neg hq, if_neg hb, if_neg (by simp [hlb])]

theorem readStrLitGo_trailing_backslash (ctx : Ctx) (start : Nat) (quote : Char)
    (hq : quote = '"' ∨ quote = '\'') (body : List Char) :
    ∀ (out : List Char) (he : Bool) (st : St),
    st.chars = body ++ ['\\'] →
    (∀ c ∈ body, c ≠ quote ∧ c ≠ '\\' ∧ isLineBreak c = false) →
    readStrLitGo ctx start quote out he st =
      .error (posSpan (st.pos + utf8LenList body), .InvalidStrEscape) := by
  have hnq : ('\\' : Char) ≠ quote := by
    rcases hq with rfl | rfl <;> decide
  induction body with
  | nil =>
    intro out he st hch hbody
    have hcur : st.cur = some '\\' := by rw [St.cur, hch]; rfl
    have hb : st.bump = { st with pos := st.pos + 1, chars := [] } := by
      rw [St.bump_cons st '\\' _ hch, show utf8Len '\\' = 1 from by decide]
    have hesc : readEscapedChar false ctx st = .error (posSpan st.pos, .InvalidStrEscape) := by
      rw [readEscapedChar.eq_def, hb]
      rfl
    rw [readStrLitGo_esc_err ctx start quote out he st _ hcur hnq hesc]
    simp [posSpan]
  | cons c body ih =>
    intro out he st hch hbody
    have hcur : st.cur = some c := by rw [St.cur, hch]; rfl
    obtain ⟨hq1, hb1, hlb1⟩ := hbody c (List.mem_cons_self c body)
    rw [readStrLitGo_other ctx start quote out he st c hcur hq1 hb1 hlb1]
    have hbch : st.bump.chars = body ++ ['\\'] := by
      rw [St.bump_cons st c _ (by rw [hch]; rfl)]
      rfl
    rw [ih (out ++ [c]) he st.bump hbch (fun d hd => hbody d (List.mem_cons_of_mem c hd))]
    have hpos : st.bump.pos = st.pos + utf8Len c := by
      rw [St.bump_cons st c _ (by rw [hch]; rfl)]
    rw [hpos]
    simp [posSpan, Nat.add_assoc]

/-- C10: when a string literal's source ends with a backslash at end of input,
the lexer reports `InvalidStrEscape` (not `UnterminatedStrLit`), with an empty
span whose start and end are both the byte offset of the backslash. -/
theorem readStrLit_trailing_backslash (ctx : Ctx) (st : St) (quote : Char)
    (body : List Char) (hq : quote = '"' ∨ quote = '\'')
    (hch : st.chars = quote :: (body ++ ['\\']))
    (hbody : ∀ c ∈ body, c ≠ quote ∧ c ≠ '\\' ∧ isLineBreak c = false) :
    readStrLit ctx st =
      .error (⟨st.pos + 1 + utf8LenList body, st.pos + 1 + utf8LenList body⟩,
        .InvalidStrEscape) := by
  have hcur : st.cur = some quote := by rw [St.cur, hch]; rfl
  have hb : st.bump = { st with pos := st.pos + 1, chars := body ++ ['\\'] } := by
    rw [St.bump_cons st quote _ hch, show utf8Len quote = 1 from by rcases hq with rfl | rfl <;> decide]
  rw [readStrLit, hcur]
  simp only [Option.getD]
  rw [hb, readStrLitGo_trailing_backslash ctx st.pos quote hq body [] false _ rfl hbody]
  simp [posSpan, Nat.add_assoc]

/-- Witness for C10: the source `'ab\` (quote, a, b, backslash, end of
input). -/
theorem readStrLit_trailing_backslash_witness :
    readStrLit baseCtx (mkSt 0 ['\'', 'a', 'b', '\\']) =
      .error (⟨3, 3⟩, .InvalidStrEscape) := by
  have h := readStrLit_trailing_backslash baseCtx (mkSt 0 ['\'', 'a', 'b', '\\']) '\''
    ['a', 'b'] (Or.inr rfl) rfl (by decide)
  simpa using h

/-! ### C5: spans of malformed-escape errors -/

theorem readHexChar_error_span (start count : Nat) (st : St) (sp : Span) (k : SyntaxError)
    (h : readHexChar start count st = .error (sp, k)) :
    sp.lo = start ∧ k ≠ .InvalidCodePoint := by
  simp only [readHexChar] at h
  repeat' split at h
  all_goals
    first
    | exact Except.noConfusion h
    | (simp only [Except.error.injEq, errAt, Prod.mk.injEq] at h
       exact ⟨by rw [← h.1], by rw [← h.2]; intro hc; exact SyntaxError.noConfusion hc⟩)

theorem readCodePoint_error_span (st : St) (sp : Span) (k : SyntaxError)
    (h : readCodePoint st = .error (sp, k)) :
    sp.lo = st.pos ∧ k = .InvalidCodePoint := by
  simp only [readCodePoint] at h
  repeat' split at h
  all_goals
    first
    | exact Except.noConfusion h
    | (simp only [Except.error.injEq, errAt, Prod.mk.injEq] at h
       exact ⟨by rw [← h.1], h.2.symm⟩)

set_option maxHeartbeats 1000000 in
theorem classifyEsc_uniU_inv (c : Char) (h : classifyEsc c = .uniU) : c = 'u' := by
  unfold classifyEsc at h
  split_ifs at h <;> first | assumption | exact EscClass.noConfusion h

theorem St.eat_of_not_is (st : St) (c : Char) (h : st.is c = false) :
    st.eat c = (false, st) := by
  rw [St.eat, if_neg (by simp [h])]

theorem readUnicodeEscape_error_span (start : Nat) (st : St) (sp : Span)
    (k : SyntaxError) (hu : st.cur = some 'u')
    (h : readUnicodeEscape start st = .error (sp, k)) :
    (k = .InvalidCodePoint ∧ sp.lo = st.pos + 2) ∨
    (k ≠ .InvalidCodePoint ∧ sp.lo = start) := by
  have hb : st.bump.pos = st.pos + 1 := by
    obtain ⟨rest, hr⟩ := St.cur_chars st 'u' hu
    rw [St.bump_cons st 'u' _ hr, show utf8Len 'u' = 1 from by decide]
  by_cases hbrace : st.bump.is '\x7b' = true
  · have hcur2 : st.bump.cur = some '\x7b' := by
      rw [St.is] at hbrace
      simpa using hbrace
    have hbb : st.bump.bump.pos = st.bump.pos + 1 := by
      obtain ⟨rest, hr⟩ := St.cur_chars st.bump '\x7b' hcur2
      rw [St.bump_cons st.bump '\x7b' _ hr, show utf8Len '\x7b' = 1 from by decide]
    have heat : st.bump.eat '\x7b' = (true, st.bump.bump) :=
      St.eat_of_cur_eq st.bump '\x7b' hcur2
    cases hcp : readCodePoint st.bump.bump with
    | error er =>
      obtain ⟨sp2, k2⟩ := er
      simp only [readUnicodeEscape, heat, hcp, Except.error.injEq, Prod.mk.injEq] at h
      rw [← h.1, ← h.2]
      obtain ⟨h1, h2⟩ := readCodePoint_error_span _ _ _ hcp
      exact Or.inl ⟨h2, by rw [h1, hbb, hb]⟩
    | ok p =>
      obtain ⟨cp, st3⟩ := p
      simp only [readUnicodeEscape, heat, hcp] at h
      split at h
      next st4 heq3 => exact Except.noConfusion h
      next st4 heq3 =>
        simp only [Except.error.injEq, errAt, Prod.mk.injEq] at h
        exact Or.inr ⟨by rw [← h.2]; intro hcon; exact SyntaxError.noConfusion hcon,
          by rw [← h.1]⟩
  · have heat : st.bump.eat '\x7b' = (false, st.bump) :=
      St.eat_of_not_is st.bump '\x7b' (by simpa using hbrace)
    simp only [readUnicodeEscape, heat] at h
    obtain ⟨h1, h2⟩ := readHexChar_error_span _ _ _ _ _ h
    exact Or.inr ⟨h2, h1⟩

theorem readEscapedOctal_error_span (inTemplate : Bool) (ctx : Ctx) (start : Nat)
    (c : Char) (st2 : St) (sp : Span) (k : SyntaxError)
    (h : readEscapedOctal inTemplate ctx start c st2 = .error (sp, k)) :
    sp.lo = start ∧ k = .LegacyOctal := by
  unfold readEscapedOctal at h
  repeat' split at h
  all_goals
    first
    | exact Except.noConfusion h
    | (simp only [Except.error.injEq, errAt, Prod.mk.injEq] at h
       exact ⟨by rw [← h.1], h.2.symm⟩)

/-- C5 (amended): every malformed-escape error of `read_escaped_char` carries
a span starting at the backslash, except the `InvalidCodePoint` errors of
`read_code_point` (out-of-range, non-scalar or empty `\u{…}` payloads), whose
span starts at the first character after the opening brace, three bytes past
the backslash. -/
theorem readEscapedChar_error_span_start (inTemplate : Bool) (ctx : Ctx) (st : St)
    (sp : Span) (k : SyntaxError) (hbs : st.cur = some '\\')
    (he : readEscapedChar inTemplate ctx st = .error (sp, k)) :
    sp.lo = if k = .InvalidCodePoint then st.pos + 3 else st.pos := by
  have hb : st.bump.pos = st.pos + 1 := by
    obtain ⟨rest, hr⟩ := St.cur_chars st '\\' hbs
    rw [St.bump_cons st '\\' _ hr, show utf8Len '\\' = 1 from by decide]
  cases hc : st.bump.cur with
  | none =>
    rw [readEscapedChar.eq_def, hc] at he
    simp only [Except.error.injEq, Prod.mk.injEq] at he
    rw [← he.1, ← he.2]
    simp [posSpan]
  | some c =>
    rw [readEscapedChar_dispatch inTemplate ctx st c hc] at he
    cases hcl : classifyEsc c with
    | crCont =>
      rw [hcl] at he
      simp only [] at he
      split at he <;> exact Except.noConfusion he
    | hexX =>
      rw [hcl] at he
      simp only [] at he
      split at he
      · exact Except.noConfusion he
      next er heq =>
        obtain ⟨sp2, k2⟩ := er
        simp only [Except.error.injEq, Prod.mk.injEq] at he
        rw [← he.1, ← he.2]
        obtain ⟨h1, h2⟩ := readHexChar_error_span _ _ _ _ _ heq
        rw [if_neg h2, h1]
    | uniU =>
      rw [hcl] at he
      obtain rfl : c = 'u' := classifyEsc_uniU_inv c hcl
      simp only [] at he
      split at he
      · exact Except.noConfusion he
      next er heq =>
        obtain ⟨sp2, k2⟩ := er
        simp only [Except.error.injEq, Prod.mk.injEq] at he
        rw [← he.1, ← he.2]
        rcases readUnicodeEscape_error_span st.pos st.bump sp2 k2 hc heq with
          ⟨h1, h2⟩ | ⟨h1, h2⟩
        · rw [if_pos h1, h2, hb]
        · rw [if_neg h1, h2]
    | octal =>
      rw [hcl] at he
      obtain ⟨h1, h2⟩ := readEscapedOctal_error_span _ _ _ _ _ _ _ he
      rw [h2]
      rw [if_neg (by intro hcon; exact SyntaxError.noConfusion hcon :
        ¬ SyntaxError.LegacyOctal = SyntaxError.InvalidCodePoint)]
      exact h1
    | _ =>
      rw [hcl] at he
      exact Except.noConfusion he

/-- Witness for the amended C5 theorem: `\xg` fails with `ExpectedHexChars`
whose span starts at the backslash (offset 0). -/
theorem readEscapedChar_error_span_start_witness :
    (⟨0, 2⟩ : Span).lo =
      if (SyntaxError.ExpectedHexChars 2) = .InvalidCodePoint then 0 + 3 else 0 := by
  have he : readEscapedChar false baseCtx (mkSt 0 ['\\', 'x', 'g']) =
      .error (⟨0, 2⟩, .ExpectedHexChars 2) := by
    rw [readEscapedChar_dispatch false baseCtx _ 'x' (by decide),
      show classifyEsc 'x' = EscClass.hexX from by decide]
    simp only []
    rw [show (mkSt 0 ['\\', 'x', 'g']).bump.bump = mkSt 2 ['g'] from by decide]
    simp only [readHexChar, readInt]
    rw [readIntGo_nondigit 16 2 0 0 (mkSt 2 ['g']) 'g' rfl (by omega) (by decide)]
    decide
  have h := readEscapedChar_error_span_start false baseCtx (mkSt 0 ['\\', 'x', 'g'])
    ⟨0, 2⟩ (.ExpectedHexChars 2) (by decide) he
  simpa using h

/-- C5 (counterexample): the escape `\u{}` produces an `InvalidCodePoint`
error whose span starts at offset 3, not at the backslash (offset 0). -/
theorem readEscapedChar_codepoint_span_counterexample :
    readEscapedChar false baseCtx (mkSt 0 ['\\', 'u', '\x7b', '\x7d']) =
      .error (⟨3, 3⟩, .InvalidCodePoint) ∧ (3 : Nat) ≠ 0 := by
  refine ⟨?_, by omega⟩
  rw [readEscapedChar_dispatch false baseCtx _ 'u' (by decide),
    show classifyEsc 'u' = EscClass.uniU from by decide]
  simp only []
  rw [show (mkSt 0 ['\\', 'u', '\x7b', '\x7d']).bump = mkSt 1 ['u', '\x7b', '\x7d'] from by decide]
  simp only [readUnicodeEscape]
  rw [show (mkSt 1 ['u', '\x7b', '\x7d']).bump = mkSt 2 ['\x7b', '\x7d'] from by decide]
  rw [St.eat_of_cur_eq (mkSt 2 ['\x7b', '\x7d']) '\x7b' rfl]
  simp only [if_pos rfl]
  rw [show (mkSt 2 ['\x7b', '\x7d']).bump = mkSt 3 ['\x7d'] from by decide]
  simp only [readCodePoint, readInt]
  rw [readIntGo_nondigit 16 0 0 0 (mkSt 3 ['\x7d']) '\x7d' rfl (by omega) (by decide)]
  decide

/-! ### C8: line terminators in template text -/

/-- The effect of the template scanner on raw text between escapes: CR LF
contributes a single LF to the decoded fragment, every other character
(including a lone CR, LF, LS or PS) is pushed verbatim (source lines 664-676). -/
def normTmpl : List Char → List Char
  | [] => []
  | '\r' :: '\n' :: rest => '\n' :: normTmpl rest
  | c :: rest => c :: normTmpl rest

@[simp] theorem normTmpl_nil : normTmpl [] = [] := rfl

theorem normTmpl_crlf (rest : List Char) :
    normTmpl ('\r' :: '\n' :: rest) = '\n' :: normTmpl rest := rfl

theorem normTmpl_cons_other (c : Char) (rest : List Char)
    (h : ∀ r, c = '\r' → rest = '\n' :: r → False) :
    normTmpl (c :: rest) = c :: normTmpl rest := by
  rw [normTmpl.eq_def]
  split
  next heq => exact List.noConfusion heq
  next r heq =>
    obtain ⟨rfl, rfl⟩ : c = '\r' ∧ rest = '\n' :: r := by
      have h1 := List.cons.inj heq
      exact ⟨h1.1, h1.2⟩
    exact (h r rfl rfl).elim
  next c2 r2 hno heq =>
    obtain ⟨rfl, rfl⟩ : c = c2 ∧ rest = r2 := by
      have h1 := List.cons.inj heq
      exact ⟨h1.1, h1.2⟩
    rfl

theorem readTmplGo_stop (ctx : Ctx) (s0 s : Nat) (out : List Char) (st : St)
    (h : st.cur = some '\u0060') (hlast : st.lastWasTplElement = false) :
    readTmplGo ctx s0 s out st = .ok (.Template (String.mk out), st) := by
  conv_lhs => rw [readTmplGo.eq_def]
  split
  next h2 => rw [h] at h2 <;> exact Option.noConfusion h2
  next c2 h2 =>
    rw [h] at h2
    obtain rfl : '\u0060' = c2 := Option.some.inj h2
    rw [if_pos (Or.inl rfl), if_neg (by simp [hlast])]

theorem readTmplGo_crlf (ctx : Ctx) (s0 s : Nat) (out : List Char) (st : St)
    (rest : List Char) (hch : st.chars = '\r' :: '\n' :: rest) :
    readTmplGo ctx s0 s out st =
      readTmplGo ctx s0 s (out ++ ['\n'])
        ⟨st.pos + 2, rest, true, st.isExprAllowed, st.lastWasTplElement⟩ := by
  have hcur : st.cur = some '\r' := by rw [St.cur, hch]; rfl
  have hpeek : st.peek = some '\n' := by simp [St.peek, hch]
  conv_lhs => rw [readTmplGo.eq_def]
  split
  next h2 => rw [hcur] at h2 <;> exact Option.noConfusion h2
  next c2 h2 =>
    rw [hcur] at h2
    obtain rfl : '\r' = c2 := Option.some.inj h2
    rw [if_neg (by rintro (hx | ⟨hx, _⟩) <;> exact absurd hx (by decide)),
      if_neg (by decide : ¬ ('\r' : Char) = '\\'),
      if_pos (by decide : isLineBreak '\r' = true),
      if_pos ⟨rfl, hpeek⟩]
    have hst : ({ st.bump.bump with hadLineBreak := true } : St) =
        ⟨st.pos + 2, rest, true, st.isExprAllowed, st.lastWasTplElement⟩ := by
      rw [St.bump_cons st '\r' _ hch, St.bump_cons _ '\n' _ rfl]
      simp [show utf8Len '\x0d' = 1 from by decide,
        show utf8Len '\n' = 1 from by decide] <;> omega
    rw [hst]

theorem readTmplGo_lb (ctx : Ctx) (s0 s : Nat) (out : List Char) (st : St)
    (c : Char) (rest : List Char) (hch : st.chars = c :: rest)
    (hlb : isLineBreak c = true) (hnc : ¬(c = '\r' ∧ st.peek = some '\n')) :
    readTmplGo ctx s0 s out st =
      readTmplGo ctx s0 s (out ++ [c])
        ⟨st.pos + utf8Len c, rest, true, st.isExprAllowed, st.lastWasTplElement⟩ := by
  have hcur : st.cur = some c := by rw [St.cur, hch]; rfl
  have hcases : c = '\n' ∨ c = '\r' ∨ c = '\u2028' ∨ c = '\u2029' := by
    simpa [isLineBreak, or_assoc] using hlb
  have hne : c ≠ '\u0060' ∧ c ≠ '$' ∧ c ≠ '\\' := by
    rcases hcases with rfl | rfl | rfl | rfl <;> exact ⟨by decide, by decide, by decide⟩
  conv_lhs => rw [readTmplGo.eq_def]
  split
  next h2 => rw [hcur] at h2 <;> exact Option.noConfusion h2
  next c2 h2 =>
    rw [hcur] at h2
    obtain rfl : c = c2 := Option.some.inj h2
    rw [if_neg (by rintro (hx | ⟨hx, _⟩) <;> [exact hne.1 hx; exact hne.2.1 hx]),
      if_neg hne.2.2, if_pos hlb, if_neg hnc]
    have hst : ({ st.bump with hadLineBreak := true } : St) =
        ⟨st.pos + utf8Len c, rest, true, st.isExprAllowed, st.lastWasTplElement⟩ := by
      rw [St.bump_cons st c _ hch]
    rw [hst]

theorem readTmplGo_plain (ctx : Ctx) (s0 s : Nat) (out : List Char) (st : St)
    (c : Char) (rest : List Char) (hch : st.chars = c :: rest)
    (h1 : c ≠ '\u0060') (h2 : c ≠ '$') (h3 : c ≠ '\\')
    (h4 : isLineBreak c = false) :
    readTmplGo ctx s0 s out st =
      readTmplGo ctx s0 s (out ++ [c])
        ⟨st.pos + utf8Len c, rest, st.hadLineBreak, st.isExprAllowed,
         st.lastWasTplElement⟩ := by
  have hcur : st.cur = some c := by rw [St.cur, hch]; rfl
  conv_lhs => rw [readTmplGo.eq_def]
  split
  next hx => rw [hcur] at hx <;> exact Option.noConfusion hx
  next c2 hx =>
    rw [hcur] at hx
    obtain rfl : c = c2 := Option.some.inj hx
    rw [if_neg (by rintro (hy | ⟨hy, _⟩) <;> [exact h1 hy; exact h2 hy]),
      if_neg h3, if_neg (by simp [h4])]
    have hst : st.bump =
        ⟨st.pos + utf8Len c, rest, st.hadLineBreak, st.isExprAllowed,
         st.lastWasTplElement⟩ := by
      rw [St.bump_cons st c _ hch]
    rw [hst]

theorem readTmplGo_scan (ctx : Ctx) (s0 s : Nat) (body : List Char) :
    ∀ (out : List Char) (st : St) (rest2 : List Char),
    st.chars = body ++ '\u0060' :: rest2 →
    st.lastWasTplElement = false →
    (∀ c ∈ body, c ≠ '\\' ∧ c ≠ '\u0060' ∧ c ≠ '$') →
    readTmplGo ctx s0 s out st =
      .ok (.Template (String.mk (out ++ normTmpl body)),
        ⟨st.pos + utf8LenList body, '\u0060' :: rest2,
         st.hadLineBreak || body.any isLineBreak, st.isExprAllowed,
         st.lastWasTplElement⟩) := by
  induction body using normTmpl.induct with
  | case1 =>
    intro out st rest2 hch hlast hbody
    rw [readTmplGo_stop ctx s0 s out st (by rw [St.cur, hch]; rfl) hlast]
    obtain ⟨pos, chars, hlb0, al0, lt0⟩ := st
    simp only [] at hch hlast
    simp [hch, hlast]
  | case2 rest ih =>
    intro out st rest2 hch hlast hbody
    rw [readTmplGo_crlf ctx s0 s out st (rest ++ '\u0060' :: rest2) (by simp [hch]),
      ih (out ++ ['\n'])
        ⟨st.pos + 2, rest ++ '\u0060' :: rest2, true, st.isExprAllowed,
         st.lastWasTplElement⟩ rest2 rfl hlast
        (fun c hc => hbody c (by simp [hc]))]
    have hL : st.pos + utf8LenList ('\r' :: '\n' :: rest) = st.pos + 2 + utf8LenList rest := by
      simp only [utf8LenList_cons, show utf8Len '\r' = 1 from by decide,
        show utf8Len '\n' = 1 from by decide]
      omega
    rw [hL, normTmpl_crlf rest]
    simp [List.append_assoc, List.any_cons,
      show isLineBreak '\r' = true from by decide]
  | case3 c rest hnotcrlf ih =>
    intro out st rest2 hch hlast hbody
    obtain ⟨hbs, hbt, hdol⟩ := hbody c (List.mem_cons_self c rest)
    by_cases hlb : isLineBreak c = true
    · have hnc : ¬(c = '\r' ∧ st.peek = some '\n') := by
        rintro ⟨rfl, hpk⟩
        rw [St.peek, hch] at hpk
        cases rest with
        | nil =>
          simp only [List.cons_append, List.nil_append] at hpk
          have hx : '\u0060' = '\n' := by simpa using hpk
          exact absurd hx (by decide)
        | cons r rs =>
          have hx : r = '\n' := by simpa using hpk
          exact hnotcrlf rs rfl (by rw [hx])
      rw [readTmplGo_lb ctx s0 s out st c (rest ++ '\u0060' :: rest2)
          (by simp [hch]) hlb hnc,
        ih (out ++ [c])
          ⟨st.pos + utf8Len c, rest ++ '\u0060' :: rest2, true, st.isExprAllowed,
           st.lastWasTplElement⟩ rest2 rfl hlast
          (fun d hd => hbody d (by simp [hd]))]
      have hL : st.pos + utf8LenList (c :: rest) = st.pos + utf8Len c + utf8LenList rest := by
        simp only [utf8LenList_cons]
        omega
      rw [hL, normTmpl_cons_other c rest hnotcrlf]
      simp [List.append_assoc, List.any_cons, hlb]
    · have hlbf : isLineBreak c = false := by
        cases hx : isLineBreak c with
        | false => rfl
        | true => exact absurd hx hlb
      rw [readTmplGo_plain ctx s0 s out st c (rest ++ '\u0060' :: rest2)
          (by simp [hch]) hbt hdol hbs hlbf,
        ih (out ++ [c])
          ⟨st.pos + utf8Len c, rest ++ '\u0060' :: rest2, st.hadLineBreak,
           st.isExprAllowed, st.lastWasTplElement⟩ rest2 rfl hlast
          (fun d hd => hbody d (by simp [hd]))]
      have hL : st.pos + utf8LenList (c :: rest) = st.pos + utf8Len c + utf8LenList rest := by
        simp only [utf8LenList_cons]
        omega
      rw [hL, normTmpl_cons_other c rest hnotcrlf]
      simp [List.append_assoc, List.any_cons, hlbf]

/-- C8: while scanning a template fragment free of escapes and interpolation
openers, a CR immediately followed by LF contributes a single LF to the decoded
fragment, every other character -- including a lone LF, CR, LS or PS -- is
pushed verbatim (normTmpl), and had_line_break comes out true exactly when the
raw text contained some line terminator. -/
theorem readTmplToken_line_breaks (ctx : Ctx) (s0 : Nat) (st : St)
    (body rest2 : List Char)
    (hch : st.chars = body ++ '\u0060' :: rest2)
    (hlast : st.lastWasTplElement = false)
    (hbody : ∀ c ∈ body, c ≠ '\\' ∧ c ≠ '\u0060' ∧ c ≠ '$') :
    readTmplToken ctx s0 st =
      .ok (.Template (String.mk (normTmpl body)),
        ⟨st.pos + utf8LenList body, '\u0060' :: rest2,
         st.hadLineBreak || body.any isLineBreak, st.isExprAllowed,
         st.lastWasTplElement⟩) := by
  simpa [readTmplToken] using
    readTmplGo_scan ctx s0 st.pos body [] st rest2 hch hlast hbody

theorem readTmplToken_line_breaks_witness :
    readTmplToken baseCtx 0 (mkSt 0 ['a', '\r', '\n', 'b', '\r', 'c', '\u0060', 'x']) =
      .ok (.Template (String.mk ['a', '\n', 'b', '\r', 'c']),
        ⟨6, ['\u0060', 'x'], true, false, false⟩) := by
  rw [readTmplToken_line_breaks baseCtx 0 (mkSt 0 ['a', '\r', '\n', 'b', '\r', 'c', '\u0060', 'x'])
    ['a', '\r', '\n', 'b', '\r', 'c'] ['x'] rfl rfl (by decide)]
  rfl

/-! ### C7: regex flags after the terminating slash -/

theorem readWordAsStrGo_run (ctx : Ctx) (run : List Char) :
    ∀ (first : Bool) (acc : List Char) (st : St) (rest : List Char),
    st.chars = run ++ rest →
    (∀ c ∈ run, isIdentPart c = true) →
    (∀ c, rest.head? = some c → isIdentPart c = false ∧ c ≠ '\\') →
    readWordAsStrGo ctx first acc st =
      .ok ((String.mk (acc ++ run), false),
        ⟨st.pos + utf8LenList run, rest, st.hadLineBreak, st.isExprAllowed,
         st.lastWasTplElement⟩) := by
  induction run with
  | nil =>
    intro first acc st rest hch hrun hstop
    obtain ⟨pos, chars, hlb0, al0, lt0⟩ := st
    simp only [List.nil_append] at hch
    subst hch
    cases chars with
    | nil =>
      rw [readWordAsStrGo_eof ctx first acc ⟨pos, [], hlb0, al0, lt0⟩ rfl]
      simp
    | cons c rest2 =>
      obtain ⟨hp, hb⟩ := hstop c rfl
      rw [readWordAsStrGo_stop ctx first acc ⟨pos, c :: rest2, hlb0, al0, lt0⟩ c rfl hp hb]
      simp
  | cons c run ih =>
    intro first acc st rest hch hrun hstop
    have hch2 : st.chars = c :: (run ++ rest) := by simp [hch]
    have hcur : st.cur = some c := by rw [St.cur, hch2]; rfl
    rw [readWordAsStrGo_part ctx first acc st c hcur (hrun c (List.mem_cons_self c run)),
      St.bump_cons st c _ hch2,
      ih false (acc ++ [c])
        ⟨st.pos + utf8Len c, run ++ rest, st.hadLineBreak, st.isExprAllowed,
         st.lastWasTplElement⟩ rest rfl
        (fun d hd => hrun d (by simp [hd])) hstop]
    have hL : st.pos + utf8LenList (c :: run) = st.pos + utf8Len c + utf8LenList run := by
      simp only [utf8LenList_cons]
      omega
    rw [hL]
    simp [List.append_assoc]

theorem readRegexpGo_plain (ctx : Ctx) (start : Nat) (content : List Char)
    (st : St) (c : Char) (h : st.cur = some c) (hlb : isLineBreak c = false)
    (hsl : c ≠ '/') (hbs : c ≠ '\\') (hbr : c ≠ '[') :
    readRegexpGo ctx start false false content st =
      readRegexpGo ctx start false false (content ++ [c]) st.bump := by
  conv_lhs => rw [readRegexpGo.eq_def]
  split
  next h2 => rw [h] at h2 <;> exact Option.noConfusion h2
  next c2 h2 =>
    rw [h] at h2
    obtain rfl : c = c2 := Option.some.inj h2
    rw [if_neg (by simp [hlb]), if_neg (by decide : ¬ (false : Bool) = true),
      if_neg (by simp [hsl])]
    simp [hbs, hbr]

theorem readRegexpGo_slash (ctx : Ctx) (start : Nat) (content : List Char)
    (st : St) (h : st.cur = some '/') :
    readRegexpGo ctx start false false content st =
      readRegexpFinish ctx start content st := by
  conv_lhs => rw [readRegexpGo.eq_def]
  split
  next h2 => rw [h] at h2 <;> exact Option.noConfusion h2
  next c2 h2 =>
    rw [h] at h2
    obtain rfl : '/' = c2 := Option.some.inj h2
    rw [if_neg (by decide : ¬ isLineBreak '/' = true),
      if_neg (by decide : ¬ (false : Bool) = true),
      if_pos (by decide : (!(false : Bool) && ('/' : Char) = '/') = true)]

/-- C7 counterexample: on the regex source /a/g the backslash after the
terminating slash is not an identifier-start character, so may_read_word_as_str
reads no flags word at all: the token is Regex "a" with empty flags and the
whole escape g (which would decode to the flag g) is left unconsumed. -/
theorem readRegexp_leading_escape_no_flags :
    readRegexp baseCtx (mkSt 0 ['/', 'a', '/', '\\', 'u', '0', '0', '6', '7']) =
      .ok (.Regex (String.mk ['a']) "", mkSt 3 ['\\', 'u', '0', '0', '6', '7']) := by
  show readRegexpGo baseCtx 0 false false []
      (mkSt 0 ['/', 'a', '/', '\\', 'u', '0', '0', '6', '7']).bump = _
  rw [show (mkSt 0 ['/', 'a', '/', '\\', 'u', '0', '0', '6', '7']).bump =
      mkSt 1 ['a', '/', '\\', 'u', '0', '0', '6', '7'] from rfl,
    readRegexpGo_plain baseCtx 0 []
      (mkSt 1 ['a', '/', '\\', 'u', '0', '0', '6', '7']) 'a' rfl (by decide)
      (by decide) (by decide) (by decide),
    show (mkSt 1 ['a', '/', '\\', 'u', '0', '0', '6', '7']).bump =
      mkSt 2 ['/', '\\', 'u', '0', '0', '6', '7'] from rfl,
    readRegexpGo_slash baseCtx 0 ([] ++ ['a'])
      (mkSt 2 ['/', '\\', 'u', '0', '0', '6', '7']) rfl]
  decide

/-- C7 (amended): after the slash terminating the regex body, flags are read by
may_read_word_as_str, which starts a word only at an identifier-START
character.  (1) When the character after the slash is not an identifier start
-- in particular when it is the backslash of a \uHHHH escape -- no flags are
consumed and the flags are the empty string.  (2) An escape-free
identifier-like run is consumed wholly as the flags.  (3) A \uHHHH escape at a
NON-initial position of the run is decoded into the flags. -/
theorem readRegexpFinish_flags (ctx : Ctx) (start : Nat) (content : List Char)
    (st : St) (tail : List Char) (hch : st.chars = '/' :: tail) :
    ((∀ c, tail.head? = some c → isIdentStart c = false) →
      readRegexpFinish ctx start content st =
        .ok (.Regex (String.mk content) "",
          ⟨st.pos + 1, tail, st.hadLineBreak, st.isExprAllowed,
           st.lastWasTplElement⟩)) ∧
    (∀ c0 run rest, tail = c0 :: (run ++ rest) →
      isIdentStart c0 = true →
      (∀ c ∈ run, isIdentPart c = true) →
      (∀ c, rest.head? = some c → isIdentPart c = false ∧ c ≠ '\\') →
      readRegexpFinish ctx start content st =
        .ok (.Regex (String.mk content) (String.mk (c0 :: run)),
          ⟨st.pos + 1 + utf8LenList (c0 :: run), rest, st.hadLineBreak,
           st.isExprAllowed, st.lastWasTplElement⟩)) ∧
    (∀ c0 d1 d2 d3 d4 ch rest,
      tail = c0 :: '\\' :: 'u' :: d1 :: d2 :: d3 :: d4 :: rest →
      isIdentStart c0 = true →
      isHexDigit d1 = true → isHexDigit d2 = true →
      isHexDigit d3 = true → isHexDigit d4 = true →
      Nat.isValidChar (hexVal d1 * 4096 + hexVal d2 * 256 + hexVal d3 * 16 + hexVal d4) →
      ch = Char.ofNat (hexVal d1 * 4096 + hexVal d2 * 256 + hexVal d3 * 16 + hexVal d4) →
      isIdentPart ch = true →
      (∀ c, rest.head? = some c → isIdentPart c = false ∧ c ≠ '\\') →
      readRegexpFinish ctx start content st =
        .ok (.Regex (String.mk content) (String.mk [c0, ch]),
          ⟨st.pos + 1 + utf8Len c0 + 6, rest, st.hadLineBreak,
           st.isExprAllowed, st.lastWasTplElement⟩)) := by
  have hb : st.bump =
      ⟨st.pos + 1, tail, st.hadLineBreak, st.isExprAllowed, st.lastWasTplElement⟩ := by
    rw [St.bump_cons st '/' _ hch, show utf8Len '/' = 1 from by decide]
  have his : st.is '/' = true := by simp [St.is, St.cur, hch]
  refine ⟨?_, ?_, ?_⟩
  · intro hstop1
    simp only [readRegexpFinish, his, Bool.not_true, Bool.false_eq_true, if_false]
    rw [hb]
    cases tail with
    | nil => simp [mayReadWordAsStr, St.cur]
    | cons c rest2 =>
      have hni : isIdentStart c = false := hstop1 c rfl
      simp [mayReadWordAsStr, St.cur, hni]
  · intro c0 run rest htail hstart hrun hstop
    subst htail
    simp only [readRegexpFinish, his, Bool.not_true, Bool.false_eq_true, if_false]
    rw [hb]
    simp only [mayReadWordAsStr, St.cur, List.head?_cons, hstart, if_true,
      readWordAsStr]
    rw [readWordAsStrGo_run ctx (c0 :: run) true [] _ rest (by simp)
      (by
        intro d hd
        rcases List.mem_cons.mp hd with rfl | hd2
        · simp [isIdentPart, hstart]
        · exact hrun d hd2) hstop]
    simp
  · intro c0 d1 d2 d3 d4 ch rest htail hstart h1 h2 h3 h4 hval hch2 hchp hstop
    subst htail
    simp only [readRegexpFinish, his, Bool.not_true, Bool.false_eq_true, if_false]
    rw [hb]
    simp only [mayReadWordAsStr, St.cur, List.head?_cons, hstart, if_true,
      readWordAsStr]
    rw [readWordAsStrGo_part ctx true []
        ⟨st.pos + 1, c0 :: '\\' :: 'u' :: d1 :: d2 :: d3 :: d4 :: rest,
         st.hadLineBreak, st.isExprAllowed, st.lastWasTplElement⟩ c0 rfl
        (by simp [isIdentPart, hstart]),
      show (⟨st.pos + 1, c0 :: '\\' :: 'u' :: d1 :: d2 :: d3 :: d4 :: rest,
         st.hadLineBreak, st.isExprAllowed, st.lastWasTplElement⟩ : St).bump =
        ⟨st.pos + 1 + utf8Len c0, '\\' :: 'u' :: d1 :: d2 :: d3 :: d4 :: rest,
         st.hadLineBreak, st.isExprAllowed, st.lastWasTplElement⟩ from
        St.bump_cons _ c0 _ rfl]
    have hu : (⟨st.pos + 1 + utf8Len c0,
        '\\' :: 'u' :: d1 :: d2 :: d3 :: d4 :: rest, st.hadLineBreak,
        st.isExprAllowed, st.lastWasTplElement⟩ : St).bump =
        ⟨st.pos + 1 + utf8Len c0 + 1, 'u' :: d1 :: d2 :: d3 :: d4 :: rest,
         st.hadLineBreak, st.isExprAllowed, st.lastWasTplElement⟩ := by
      rw [St.bump_cons _ '\\' _ rfl, show utf8Len '\\' = 1 from by decide]
    have hesc : readUnicodeEscape (st.pos + 1 + utf8Len c0)
        (⟨st.pos + 1 + utf8Len c0,
          '\\' :: 'u' :: d1 :: d2 :: d3 :: d4 :: rest, st.hadLineBreak,
          st.isExprAllowed, st.lastWasTplElement⟩ : St).bump =
        .ok (ch, ⟨st.pos + 1 + utf8Len c0 + 1 + 5, rest, st.hadLineBreak,
          st.isExprAllowed, st.lastWasTplElement⟩) := by
      rw [hu, readUnicodeEscape_hex4 _ _ d1 d2 d3 d4 rest rfl h1 h2 h3 h4,
        if_pos hval, ← hch2]
    rw [readWordAsStrGo_esc_ok ctx false ([] ++ [c0])
        ⟨st.pos + 1 + utf8Len c0, '\\' :: 'u' :: d1 :: d2 :: d3 :: d4 :: rest,
         st.hadLineBreak, st.isExprAllowed, st.lastWasTplElement⟩ ch
        ⟨st.pos + 1 + utf8Len c0 + 1 + 5, rest, st.hadLineBreak,
         st.isExprAllowed, st.lastWasTplElement⟩ rfl
        (by rw [hu]; simp [St.is, St.cur]) hesc (by simp [hchp]),
      readWordAsStrGo_run ctx [] false (([] ++ [c0]) ++ [ch])
        ⟨st.pos + 1 + utf8Len c0 + 1 + 5, rest, st.hadLineBreak,
         st.isExprAllowed, st.lastWasTplElement⟩ rest rfl
        (by intro d hd; exact absurd hd (List.not_mem_nil d)) hstop]
    simp
    all_goals omega

theorem readRegexpFinish_flags_witness :
    readRegexpFinish baseCtx 0 ['a']
      (mkSt 3 ['/', 'g', '\\', 'u', '0', '0', '6', '9', ';']) =
      .ok (.Regex (String.mk ['a']) (String.mk ['g', 'i']),
        ⟨11, [';'], false, false, false⟩) := by
  rw [(readRegexpFinish_flags baseCtx 0 ['a']
      (mkSt 3 ['/', 'g', '\\', 'u', '0', '0', '6', '9', ';'])
      ['g', '\\', 'u', '0', '0', '6', '9', ';'] rfl).2.2 'g' '0' '0' '6' '9' 'i' [';']
      rfl (by decide) (by decide) (by decide) (by decide) (by decide) (by decide)
      (by decide) (by decide)
      (by
        intro c hc
        simp at hc
        subst hc
        exact ⟨by decide, by decide⟩)]
  rfl

/-! ### C2: when a Regex token can be emitted -/

theorem readIdentOrKeyword_shape (ctx : Ctx) (st : St) (t : Token) (st1 : St)
    (h : readIdentOrKeyword ctx st = .ok (t, st1)) : ∃ w, t = .Word w := by
  unfold readIdentOrKeyword at h
  split at h
  · exact Except.noConfusion h
  · split_ifs at h
    simp only [Except.ok.injEq, Prod.mk.injEq] at h
    exact ⟨_, h.1.symm⟩

theorem readStrLitGo_shape (ctx : Ctx) (start : Nat) (quote : Char) :
    ∀ (n : Nat) (out : List Char) (he : Bool) (st : St) (t : Token) (st1 : St),
    st.chars.length ≤ n →
    readStrLitGo ctx start quote out he st = .ok (t, st1) →
    ∃ s e, t = .Str s e := by
  intro n
  induction n with
  | zero =>
    intro out he st t st1 hn h
    have hcur : st.cur = none := by
      rw [St.cur]
      cases hc : st.chars with
      | nil => rfl
      | cons a l => rw [hc] at hn; simp at hn
    rw [readStrLitGo.eq_def] at h
    split at h
    · exact Except.noConfusion h
    next c heq => rw [hcur] at heq; exact Option.noConfusion heq
  | succ n ih =>
    intro out he st t st1 hn h
    rw [readStrLitGo.eq_def] at h
    split at h
    · exact Except.noConfusion h
    next c heq =>
      have hlt : st.bump.chars.length ≤ n := by
        have := St.bump_length_lt_of_cur st c heq
        omega
      split_ifs at h with h1 h2 h3
      · simp only [Except.ok.injEq, Prod.mk.injEq] at h
        exact ⟨String.mk out, he, h.1.symm⟩
      · split at h
        · exact Except.noConfusion h
        next oc st2 hesc =>
          have hlen : st2.chars.length ≤ n :=
            le_trans (readEscapedChar_length_le _ _ _ _ _ hesc) hlt
          exact ih (out ++ oc.toList) true st2 t st1 hlen h
      · exact ih (out ++ [c]) he st.bump t st1 hlt h

theorem readStrLit_shape (ctx : Ctx) (st : St) (t : Token) (st1 : St)
    (h : readStrLit ctx st = .ok (t, st1)) : ∃ s e, t = .Str s e := by
  unfold readStrLit at h
  exact readStrLitGo_shape ctx st.pos (st.cur.getD '"') st.bump.chars.length []
    false st.bump t st1 (le_refl _) h

theorem readRegexpFinish_shape (ctx : Ctx) (start : Nat) (content : List Char)
    (st : St) (t : Token) (st1 : St)
    (h : readRegexpFinish ctx start content st = .ok (t, st1)) :
    ∃ b f, t = .Regex b f := by
  unfold readRegexpFinish at h
  split_ifs at h
  split at h
  · exact Except.noConfusion h
  · simp only [Except.ok.injEq, Prod.mk.injEq] at h
    exact ⟨String.mk content, _, h.1.symm⟩

theorem readRegexpGo_shape (ctx : Ctx) (start : Nat) :
    ∀ (n : Nat) (escaped inClass : Bool) (content : List Char) (st : St)
      (t : Token) (st1 : St),
    st.chars.length ≤ n →
    readRegexpGo ctx start escaped inClass content st = .ok (t, st1) →
    ∃ b f, t = .Regex b f := by
  intro n
  induction n with
  | zero =>
    intro escaped inClass content st t st1 hn h
    have hcur : st.cur = none := by
      rw [St.cur]
      cases hc : st.chars with
      | nil => rfl
      | cons a l => rw [hc] at hn; simp at hn
    rw [readRegexpGo.eq_def] at h
    split at h
    · exact readRegexpFinish_shape ctx start content st t st1 h
    next c heq => rw [hcur] at heq; exact Option.noConfusion heq
  | succ n ih =>
    intro escaped inClass content st t st1 hn h
    rw [readRegexpGo.eq_def] at h
    split at h
    · exact readRegexpFinish_shape ctx start content st t st1 h
    next c heq =>
      have hlt : st.bump.chars.length ≤ n := by
        have := St.bump_length_lt_of_cur st c heq
        omega
      split_ifs at h with h1 h2
      all_goals first
        | exact readRegexpFinish_shape ctx start content st t st1 h
        | exact ih _ _ _ _ _ _ hlt h

theorem readSlash_regex (ctx : Ctx) (st : St) (t : Token) (st1 : St)
    (hea : st.isExprAllowed = true) (h : readSlash ctx st = .ok (some t, st1)) :
    ∃ b f, t = .Regex b f := by
  unfold readSlash at h
  rw [if_pos hea] at h
  split at h
  · exact Except.noConfusion h
  next t0 st2 hr =>
    simp only [Except.ok.injEq, Prod.mk.injEq, Option.some.injEq] at h
    obtain ⟨b, f, rfl⟩ :=
      readRegexpGo_shape ctx st.pos st.bump.chars.length false false [] st.bump
        t0 st2 (le_refl _) hr
    exact ⟨b, f, h.1.symm⟩

theorem readSlash_div (ctx : Ctx) (st : St) (t : Token) (st1 : St)
    (hea : st.isExprAllowed = false) (h : readSlash ctx st = .ok (some t, st1)) :
    t = .BinOp .Div ∨ t = .AssignOp .DivAssign := by
  unfold readSlash at h
  rw [if_neg (by simp [hea])] at h
  split at h
  next st2 hbe =>
    simp only [Except.ok.injEq, Prod.mk.injEq, Option.some.injEq] at h
    exact Or.inr h.1.symm
  next st2 hbe =>
    simp only [Except.ok.injEq, Prod.mk.injEq, Option.some.injEq] at h
    exact Or.inl h.1.symm

theorem punctToken_not_regex (c : Char) (b f : String) :
    punctToken c ≠ .Regex b f := by
  unfold punctToken
  split_ifs <;> exact fun hx => Token.noConfusion hx

theorem classifyTok_inv3 (c : Char) :
    (classifyTok c = .slash → c = '/') ∧
    (classifyTok c = .plusMinus → (c = '+' ∨ c = '-')) ∧
    (classifyTok c = .ltGt → (c = '<' ∨ c = '>')) := by
  unfold classifyTok
  by_cases h1 : (c = '\\' || isIdentStart c) = true
  · rw [if_pos h1]
    exact ⟨fun h => TokClass.noConfusion h, fun h => TokClass.noConfusion h, fun h => TokClass.noConfusion h⟩
  · rw [if_neg h1]
    by_cases h2 : c = '.'
    · rw [if_pos h2]
      exact ⟨fun h => TokClass.noConfusion h, fun h => TokClass.noConfusion h, fun h => TokClass.noConfusion h⟩
    · rw [if_neg h2]
      by_cases h3 : c = '(' ∨ c = ')' ∨ c = ';' ∨ c = ',' ∨ c = '[' ∨ c = ']' ∨ c = '\x7b' ∨ c = '\x7d' ∨ c = '@' ∨ c = '?'
      · rw [if_pos h3]
        exact ⟨fun h => TokClass.noConfusion h, fun h => TokClass.noConfusion h, fun h => TokClass.noConfusion h⟩
      · rw [if_neg h3]
        by_cases h4 : c = '\u0060'
        · rw [if_pos h4]
          exact ⟨fun h => TokClass.noConfusion h, fun h => TokClass.noConfusion h, fun h => TokClass.noConfusion h⟩
        · rw [if_neg h4]
          by_cases h5 : c = ':'
          · rw [if_pos h5]
            exact ⟨fun h => TokClass.noConfusion h, fun h => TokClass.noConfusion h, fun h => TokClass.noConfusion h⟩
          · rw [if_neg h5]
            by_cases h6 : c = '0'
            · rw [if_pos h6]
              exact ⟨fun h => TokClass.noConfusion h, fun h => TokClass.noConfusion h, fun h => TokClass.noConfusion h⟩
            · rw [if_neg h6]
              by_cases h7 : '1' ≤ c ∧ c ≤ '9'
              · rw [if_pos h7]
                exact ⟨fun h => TokClass.noConfusion h, fun h => TokClass.noConfusion h, fun h => TokClass.noConfusion h⟩
              · rw [if_neg h7]
                by_cases h8 : c = '"' ∨ c = '\''
                · rw [if_pos h8]
                  exact ⟨fun h => TokClass.noConfusion h, fun h => TokClass.noConfusion h, fun h => TokClass.noConfusion h⟩
                · rw [if_neg h8]
                  by_cases h9 : c = '/'
                  · rw [if_pos h9]
                    exact ⟨fun _ => h9, fun h => TokClass.noConfusion h, fun h => TokClass.noConfusion h⟩
                  · rw [if_neg h9]
                    by_cases h10 : c = '%' ∨ c = '*'
                    · rw [if_pos h10]
                      exact ⟨fun h => TokClass.noConfusion h, fun h => TokClass.noConfusion h, fun h => TokClass.noConfusion h⟩
                    · rw [if_neg h10]
                      by_cases h11 : c = '|' ∨ c = '&'
                      · rw [if_pos h11]
                        exact ⟨fun h => TokClass.noConfusion h, fun h => TokClass.noConfusion h, fun h => TokClass.noConfusion h⟩
                      · rw [if_neg h11]
                        by_cases h12 : c = '^'
                        · rw [if_pos h12]
                          exact ⟨fun h => TokClass.noConfusion h, fun h => TokClass.noConfusion h, fun h => TokClass.noConfusion h⟩
                        · rw [if_neg h12]
                          by_cases h13 : c = '+' ∨ c = '-'
                          · rw [if_pos h13]
                            exact ⟨fun h => TokClass.noConfusion h, fun _ => h13, fun h => TokClass.noConfusion h⟩
                          · rw [if_neg h13]
                            by_cases h14 : c = '<' ∨ c = '>'
                            · rw [if_pos h14]
                              exact ⟨fun h => TokClass.noConfusion h, fun h => TokClass.noConfusion h, fun _ => h14⟩
                            · rw [if_neg h14]
                              by_cases h15 : c = '!' ∨ c = '='
                              · rw [if_pos h15]
                                exact ⟨fun h => TokClass.noConfusion h, fun h => TokClass.noConfusion h, fun h => TokClass.noConfusion h⟩
                              · rw [if_neg h15]
                                by_cases h16 : c = '~'
                                · rw [if_pos h16]
                                  exact ⟨fun h => TokClass.noConfusion h, fun h => TokClass.noConfusion h, fun h => TokClass.noConfusion h⟩
                                · rw [if_neg h16]
                                  exact ⟨fun h => TokClass.noConfusion h, fun h => TokClass.noConfusion h, fun h => TokClass.noConfusion h⟩

/-- The state at which the dispatch of read_token settles on a character: the
lexer either dispatches on the state it was given, or, on the legacy HTML
comment openers --(after a line break) and <!-- in script mode, skips the
comment plus following whitespace and re-reads (source lines 199-227 and
392-435). -/
inductive DispatchMoment (ctx : Ctx) : St → St → Prop
  | refl (st : St) : DispatchMoment ctx st st
  | htmlClose (st st1 stm : St) :
      st.cur = some '-' → st.bump.cur = some '-' →
      st.hadLineBreak = true → st.bump.bump.cur = some '>' →
      ctx.module = false →
      skipSpace (skipLineComment 0 st.bump.bump.bump) = .ok st1 →
      DispatchMoment ctx st1 stm →
      DispatchMoment ctx st stm
  | htmlOpen (st st1 stm : St) :
      st.cur = some '<' → ctx.module = false →
      st.bump.cur = some '!' → st.bump.peek = some '-' →
      st.bump.peekAhead = some '-' →
      skipSpace (skipLineComment 3 st.bump) = .ok st1 →
      DispatchMoment ctx st1 stm →
      DispatchMoment ctx st stm

theorem dispatchMoment_cases (ctx : Ctx) (st stm : St)
    (h : DispatchMoment ctx st stm) :
    stm = st ∨
    (st.cur = some '-' ∧ st.bump.cur = some '-' ∧ st.hadLineBreak = true ∧
      st.bump.bump.cur = some '>' ∧ ctx.module = false ∧
      ∃ st1, skipSpace (skipLineComment 0 st.bump.bump.bump) = .ok st1 ∧
        DispatchMoment ctx st1 stm) ∨
    (st.cur = some '<' ∧ ctx.module = false ∧ st.bump.cur = some '!' ∧
      st.bump.peek = some '-' ∧ st.bump.peekAhead = some '-' ∧
      ∃ st1, skipSpace (skipLineComment 3 st.bump) = .ok st1 ∧
        DispatchMoment ctx st1 stm) := by
  cases h with
  | refl => exact Or.inl rfl
  | htmlClose st st1 stm h1 h2 h3 h4 h5 h6 h7 =>
    exact Or.inr (Or.inl ⟨h1, h2, h3, h4, h5, st1, h6, h7⟩)
  | htmlOpen st st1 stm h1 h2 h3 h4 h5 h6 h7 =>
    exact Or.inr (Or.inr ⟨h1, h2, h3, h4, h5, st1, h6, h7⟩)

theorem regexMoment_ordinary (ctx : Ctx) (st : St) (t : Token) (c : Char)
    (hcur : st.cur = some c) (hslash : c ≠ '/') (hdash : c ≠ '-') (hlt : c ≠ '<')
    (hshape : ∀ b f, t ≠ .Regex b f) :
    ((∃ b f, t = .Regex b f) ↔
      ∃ stm, DispatchMoment ctx st stm ∧ stm.cur = some '/' ∧
        stm.isExprAllowed = true) ∧
    (st.cur = some '/' → st.isExprAllowed = false →
      t = .BinOp .Div ∨ t = .AssignOp .DivAssign) := by
  constructor
  · constructor
    · rintro ⟨b, f, rfl⟩
      exact absurd rfl (hshape b f)
    · rintro ⟨stm, hm, hcm, ham⟩
      rcases dispatchMoment_cases ctx st stm hm with rfl | hcl | hop
      · rw [hcur] at hcm
        exact absurd (Option.some.inj hcm) hslash
      · rw [hcur] at hcl
        exact absurd (Option.some.inj hcl.1) hdash
      · rw [hcur] at hop
        exact absurd (Option.some.inj hop.1) hlt
  · intro hsl
    rw [hcur] at hsl
    exact absurd (Option.some.inj hsl) hslash

/-- C2: a token produced by read_token is a Regex exactly when, at the moment
the dispatch settled (the given state, or the state re-read after skipping a
legacy HTML comment), the cursor was on a slash and is_expr_allowed was true;
and when the cursor is on a slash with is_expr_allowed false, the token is the
division operator or the division assignment. -/
theorem readTokenF_regex_iff :
    ∀ (fuel : Nat) (ctx : Ctx) (st : St) (t : Token) (st' : St),
    readTokenF fuel ctx st = .ok (some t, st') →
    (((∃ b f, t = .Regex b f) ↔
       ∃ stm, DispatchMoment ctx st stm ∧ stm.cur = some '/' ∧
         stm.isExprAllowed = true) ∧
     (st.cur = some '/' → st.isExprAllowed = false →
       t = .BinOp .Div ∨ t = .AssignOp .DivAssign)) := by
  intro fuel
  induction fuel with
  | zero =>
    intro ctx st t st' h
    simp [readTokenF] at h
  | succ fuel ih =>
    intro ctx st t st' h
    cases hcur : st.cur with
    | none =>
      rw [readTokenF_eof fuel ctx st hcur] at h
      simp at h
    | some c =>
      rw [← hcur]
      cases hcl : classifyTok c with
      | ident =>
        rw [readTokenF_ident fuel ctx st c hcur hcl] at h
        refine regexMoment_ordinary ctx st t c hcur
          (by rintro rfl; exact absurd hcl (by decide))
          (by rintro rfl; exact absurd hcl (by decide))
          (by rintro rfl; exact absurd hcl (by decide)) ?_
        intro b f hbf
        subst hbf
        cases hio : readIdentOrKeyword ctx st with
        | error er => rw [hio] at h; simp at h
        | ok p =>
          obtain ⟨t0, st1⟩ := p
          rw [hio] at h
          obtain ⟨w, rfl⟩ := readIdentOrKeyword_shape ctx st t0 st1 hio
          simp at h
      | dot =>
        rw [readTokenF_dot fuel ctx st c hcur hcl] at h
        refine regexMoment_ordinary ctx st t c hcur
          (by rintro rfl; exact absurd hcl (by decide))
          (by rintro rfl; exact absurd hcl (by decide))
          (by rintro rfl; exact absurd hcl (by decide)) ?_
        intro b f hbf
        subst hbf
        repeat' split at h
        all_goals simp_all
      | punct =>
        rw [readTokenF_punct fuel ctx st c hcur hcl] at h
        refine regexMoment_ordinary ctx st t c hcur
          (by rintro rfl; exact absurd hcl (by decide))
          (by rintro rfl; exact absurd hcl (by decide))
          (by rintro rfl; exact absurd hcl (by decide)) ?_
        intro b f hbf
        subst hbf
        simp at h
        exact punctToken_not_regex c b f h.1
      | backQuote =>
        rw [readTokenF_backQuote fuel ctx st c hcur hcl] at h
        refine regexMoment_ordinary ctx st t c hcur
          (by rintro rfl; exact absurd hcl (by decide))
          (by rintro rfl; exact absurd hcl (by decide))
          (by rintro rfl; exact absurd hcl (by decide)) ?_
        intro b f hbf
        subst hbf
        simp at h
      | colon =>
        rw [readTokenF_colon fuel ctx st c hcur hcl] at h
        refine regexMoment_ordinary ctx st t c hcur
          (by rintro rfl; exact absurd hcl (by decide))
          (by rintro rfl; exact absurd hcl (by decide))
          (by rintro rfl; exact absurd hcl (by decide)) ?_
        intro b f hbf
        subst hbf
        repeat' split at h
        all_goals simp_all
      | zero =>
        rw [readTokenF_zero fuel ctx st c hcur hcl] at h
        refine regexMoment_ordinary ctx st t c hcur
          (by rintro rfl; exact absurd hcl (by decide))
          (by rintro rfl; exact absurd hcl (by decide))
          (by rintro rfl; exact absurd hcl (by decide)) ?_
        intro b f hbf
        subst hbf
        repeat' split at h
        all_goals simp_all
      | digit =>
        rw [readTokenF_digit fuel ctx st c hcur hcl] at h
        refine regexMoment_ordinary ctx st t c hcur
          (by rintro rfl; exact absurd hcl (by decide))
          (by rintro rfl; exact absurd hcl (by decide))
          (by rintro rfl; exact absurd hcl (by decide)) ?_
        intro b f hbf
        subst hbf
        repeat' split at h
        all_goals simp_all
      | quote =>
        rw [readTokenF_quote fuel ctx st c hcur hcl] at h
        refine regexMoment_ordinary ctx st t c hcur
          (by rintro rfl; exact absurd hcl (by decide))
          (by rintro rfl; exact absurd hcl (by decide))
          (by rintro rfl; exact absurd hcl (by decide)) ?_
        intro b f hbf
        subst hbf
        cases hq : readStrLit ctx st with
        | error er => rw [hq] at h; simp at h
        | ok p =>
          obtain ⟨t0, st1⟩ := p
          rw [hq] at h
          obtain ⟨s, e, rfl⟩ := readStrLit_shape ctx st t0 st1 hq
          simp at h
      | slash =>
        obtain rfl : c = '/' := (classifyTok_inv3 c).1 hcl
        rw [readTokenF_slash fuel ctx st '/' hcur hcl] at h
        cases hea : st.isExprAllowed with
        | true =>
          obtain ⟨b, f, rfl⟩ := readSlash_regex ctx st t st' hea h
          refine ⟨⟨fun _ => ⟨st, DispatchMoment.refl st, hcur, hea⟩,
            fun _ => ⟨b, f, rfl⟩⟩, ?_⟩
          intro _ hfalse
          exact Bool.noConfusion hfalse
        | false =>
          have hdiv := readSlash_div ctx st t st' hea h
          refine ⟨⟨?_, ?_⟩, fun _ _ => hdiv⟩
          · rintro ⟨b, f, rfl⟩
            rcases hdiv with hx | hx <;> exact Token.noConfusion hx
          · rintro ⟨stm, hm, hcm, ham⟩
            rcases dispatchMoment_cases ctx st stm hm with rfl | hcl2 | hop
            · rw [ham] at hea
              exact Bool.noConfusion hea
            · rw [hcur] at hcl2
              exact absurd (Option.some.inj hcl2.1) (by decide)
            · rw [hcur] at hop
              exact absurd (Option.some.inj hop.1) (by decide)
      | mulMod =>
        rw [readTokenF_mulMod fuel ctx st c hcur hcl] at h
        refine regexMoment_ordinary ctx st t c hcur
          (by rintro rfl; exact absurd hcl (by decide))
          (by rintro rfl; exact absurd hcl (by decide))
          (by rintro rfl; exact absurd hcl (by decide)) ?_
        intro b f hbf
        subst hbf
        repeat' split at h
        all_goals simp_all
      | bitAndOr =>
        rw [readTokenF_bitAndOr fuel ctx st c hcur hcl] at h
        refine regexMoment_ordinary ctx st t c hcur
          (by rintro rfl; exact absurd hcl (by decide))
          (by rintro rfl; exact absurd hcl (by decide))
          (by rintro rfl; exact absurd hcl (by decide)) ?_
        intro b f hbf
        subst hbf
        repeat' split at h
        all_goals simp_all
      | caret =>
        rw [readTokenF_caret fuel ctx st c hcur hcl] at h
        refine regexMoment_ordinary ctx st t c hcur
          (by rintro rfl; exact absurd hcl (by decide))
          (by rintro rfl; exact absurd hcl (by decide))
          (by rintro rfl; exact absurd hcl (by decide)) ?_
        intro b f hbf
        subst hbf
        repeat' split at h
        all_goals simp_all
      | bangEq =>
        rw [readTokenF_bangEq fuel ctx st c hcur hcl] at h
        refine regexMoment_ordinary ctx st t c hcur
          (by rintro rfl; exact absurd hcl (by decide))
          (by rintro rfl; exact absurd hcl (by decide))
          (by rintro rfl; exact absurd hcl (by decide)) ?_
        intro b f hbf
        subst hbf
        repeat' split at h
        all_goals simp_all
      | tilde =>
        rw [readTokenF_tilde fuel ctx st c hcur hcl] at h
        refine regexMoment_ordinary ctx st t c hcur
          (by rintro rfl; exact absurd hcl (by decide))
          (by rintro rfl; exact absurd hcl (by decide))
          (by rintro rfl; exact absurd hcl (by decide)) ?_
        intro b f hbf
        subst hbf
        simp at h
      | unexpected =>
        rw [readTokenF_unexpected fuel ctx st c hcur hcl] at h
        simp at h
      | plusMinus =>
        rcases (classifyTok_inv3 c).2.1 hcl with rfl | rfl
        · rw [readTokenF_plusMinus fuel ctx st '+' hcur hcl] at h
          refine regexMoment_ordinary ctx st t '+' hcur (by decide) (by decide)
            (by decide) ?_
          intro b f hbf
          subst hbf
          repeat' split at h
          all_goals simp_all
        · rw [readTokenF_plusMinus fuel ctx st '-' hcur hcl] at h
          by_cases h1 : st.bump.cur = some '-'
          · rw [if_pos h1] at h
            by_cases h2 : (st.hadLineBreak && (('-' : Char) = '-') &&
                (st.bump.bump.cur = some '>') : Bool) = true
            · rw [if_pos h2] at h
              obtain ⟨hlb, hgt⟩ : st.hadLineBreak = true ∧
                  st.bump.bump.cur = some '>' := by simpa using h2
              by_cases h3 : ctx.module = true
              · rw [if_pos h3] at h
                simp at h
              · rw [if_neg h3] at h
                have hmod : ctx.module = false := by
                  cases hx : ctx.module
                  · rfl
                  · exact absurd hx h3
                cases hss : skipSpace (skipLineComment 0 st.bump.bump.bump) with
                | error er => rw [hss] at h; simp at h
                | ok st1 =>
                  rw [hss] at h
                  simp only [] at h
                  obtain ⟨hiff, _⟩ := ih ctx st1 t st' h
                  constructor
                  · constructor
                    · intro hreg
                      obtain ⟨stm, hm, hcm, ham⟩ := hiff.mp hreg
                      exact ⟨stm,
                        DispatchMoment.htmlClose st st1 stm hcur h1 hlb hgt hmod hss hm,
                        hcm, ham⟩
                    · rintro ⟨stm, hm, hcm, ham⟩
                      rcases dispatchMoment_cases ctx st stm hm with rfl | hcl2 | hop
                      · rw [hcur] at hcm
                        exact absurd (Option.some.inj hcm) (by decide)
                      · obtain ⟨-, -, -, -, -, st1x, hssx, hmx⟩ := hcl2
                        rw [hss] at hssx
                        obtain rfl : st1 = st1x := Except.ok.inj hssx
                        exact hiff.mpr ⟨stm, hmx, hcm, ham⟩
                      · rw [hcur] at hop
                        exact absurd (Option.some.inj hop.1) (by decide)
                  · intro hsl
                    rw [hcur] at hsl
                    exact absurd (Option.some.inj hsl) (by decide)
            · rw [if_neg h2] at h
              constructor
              · constructor
                · rintro ⟨b, f, rfl⟩
                  simp at h
                · rintro ⟨stm, hm, hcm, ham⟩
                  rcases dispatchMoment_cases ctx st stm hm with rfl | hcl2 | hop
                  · rw [hcur] at hcm
                    exact absurd (Option.some.inj hcm) (by decide)
                  · obtain ⟨-, -, hlbx, hgtx, -, -⟩ := hcl2
                    exact (h2 (by simp [hlbx, hgtx])).elim
                  · rw [hcur] at hop
                    exact absurd (Option.some.inj hop.1) (by decide)
              · intro hsl
                rw [hcur] at hsl
                exact absurd (Option.some.inj hsl) (by decide)
          · rw [if_neg h1] at h
            constructor
            · constructor
              · rintro ⟨b, f, rfl⟩
                split_ifs at h <;> simp at h
              · rintro ⟨stm, hm, hcm, ham⟩
                rcases dispatchMoment_cases ctx st stm hm with rfl | hcl2 | hop
                · rw [hcur] at hcm
                  exact absurd (Option.some.inj hcm) (by decide)
                · exact (h1 hcl2.2.1).elim
                · rw [hcur] at hop
                  exact absurd (Option.some.inj hop.1) (by decide)
            · intro hsl
              rw [hcur] at hsl
              exact absurd (Option.some.inj hsl) (by decide)
      | ltGt =>
        rcases (classifyTok_inv3 c).2.2 hcl with rfl | rfl
        · rw [readTokenF_ltGt fuel ctx st '<' hcur hcl] at h
          by_cases hcond : ctx.module = false ∧ ('<' : Char) = '<' ∧
              st.bump.cur = some '!' ∧ st.bump.peek = some '-' ∧
              st.bump.peekAhead = some '-'
          · rw [if_pos hcond] at h
            obtain ⟨hmod, -, hbang, hp1, hp2⟩ := hcond
            cases hss : skipSpace (skipLineComment 3 st.bump) with
            | error er => rw [hss] at h; simp at h
            | ok st1 =>
              rw [hss] at h
              simp only [] at h
              obtain ⟨hiff, _⟩ := ih ctx st1 t st' h
              constructor
              · constructor
                · intro hreg
                  obtain ⟨stm, hm, hcm, ham⟩ := hiff.mp hreg
                  exact ⟨stm,
                    DispatchMoment.htmlOpen st st1 stm hcur hmod hbang hp1 hp2 hss hm,
                    hcm, ham⟩
                · rintro ⟨stm, hm, hcm, ham⟩
                  rcases dispatchMoment_cases ctx st stm hm with rfl | hcl2 | hop
                  · rw [hcur] at hcm
                    exact absurd (Option.some.inj hcm) (by decide)
                  · rw [hcur] at hcl2
                    exact absurd (Option.some.inj hcl2.1) (by decide)
                  · obtain ⟨-, -, -, -, -, st1x, hssx, hmx⟩ := hop
                    rw [hss] at hssx
                    obtain rfl : st1 = st1x := Except.ok.inj hssx
                    exact hiff.mpr ⟨stm, hmx, hcm, ham⟩
              · intro hsl
                rw [hcur] at hsl
                exact absurd (Option.some.inj hsl) (by decide)
          · rw [if_neg hcond] at h
            constructor
            · constructor
              · rintro ⟨b, f, rfl⟩
                split_ifs at h <;> simp at h
              · rintro ⟨stm, hm, hcm, ham⟩
                rcases dispatchMoment_cases ctx st stm hm with rfl | hcl2 | hop
                · rw [hcur] at hcm
                  exact absurd (Option.some.inj hcm) (by decide)
                · rw [hcur] at hcl2
                  exact absurd (Option.some.inj hcl2.1) (by decide)
                · obtain ⟨-, hmodx, hbangx, hp1x, hp2x, -⟩ := hop
                  exact (hcond ⟨hmodx, rfl, hbangx, hp1x, hp2x⟩).elim
            · intro hsl
              rw [hcur] at hsl
              exact absurd (Option.some.inj hsl) (by decide)
        · rw [readTokenF_ltGt fuel ctx st '>' hcur hcl] at h
          refine regexMoment_ordinary ctx st t '>' hcur (by decide) (by decide)
            (by decide) ?_
          intro b f hbf
          subst hbf
          repeat' split at h
          all_goals simp_all

theorem readTokenF_regex_iff_witness :
    ∃ stm, DispatchMoment baseCtx ⟨0, ['/', 'a', '/'], false, true, false⟩ stm ∧
      stm.cur = some '/' ∧ stm.isExprAllowed = true := by
  have hr : readRegexp baseCtx ⟨0, ['/', 'a', '/'], false, true, false⟩ =
      .ok (.Regex (String.mk ['a']) "", ⟨3, [], false, true, false⟩) := by
    show readRegexpGo baseCtx 0 false false []
        (⟨0, ['/', 'a', '/'], false, true, false⟩ : St).bump = _
    rw [show (⟨0, ['/', 'a', '/'], false, true, false⟩ : St).bump =
        (⟨1, ['a', '/'], false, true, false⟩ : St) from rfl,
      readRegexpGo_plain baseCtx 0 [] ⟨1, ['a', '/'], false, true, false⟩ 'a' rfl
        (by decide) (by decide) (by decide) (by decide),
      show (⟨1, ['a', '/'], false, true, false⟩ : St).bump =
        (⟨2, ['/'], false, true, false⟩ : St) from rfl,
      readRegexpGo_slash baseCtx 0 ([] ++ ['a']) ⟨2, ['/'], false, true, false⟩ rfl]
    decide
  have heval : readTokenF 1 baseCtx ⟨0, ['/', 'a', '/'], false, true, false⟩ =
      .ok (some (.Regex (String.mk ['a']) ""), ⟨3, [], false, true, false⟩) := by
    rw [readTokenF_slash 0 baseCtx ⟨0, ['/', 'a', '/'], false, true, false⟩ '/' rfl
      (by decide)]
    unfold readSlash
    rw [if_pos (show (⟨0, ['/', 'a', '/'], false, true, false⟩ : St).isExprAllowed = true
      from rfl), hr]
  exact (((readTokenF_regex_iff 1 baseCtx ⟨0, ['/', 'a', '/'], false, true, false⟩
      (.Regex (String.mk ['a']) "") ⟨3, [], false, true, false⟩ heval).1).mp
    ⟨String.mk ['a'], "", rfl⟩)

end SwcLexer
